import Mathlib

/-!
Verification of the Contact Linking Engine of the identity-reconciliation
service.

This file is a shallow embedding of the TypeScript source:
- `src/services/contact-linking-engine.ts` (`ContactLinkingEngine`)
- the Prisma contact repository (`PrismaContactRepository`)
- the contact service (`ContactService.identifyContact`,
  `ContactService.formatIdentifyResponse`)

Modelling conventions:
- Databases rows become a `Store` that keeps its `Contact` rows in insertion
  order; ids are assigned monotonically (`nextId`), timestamps come from a
  logical clock (`now`).  Prisma `orderBy` clauses are modelled by a stable
  insertion sort (rows with equal keys keep insertion = id order, matching
  how SQLite/Postgres return rows ordered by a non-unique key).
- JavaScript truthiness on optional strings (`if (request.email)`,
  `!contact.email`) is modelled by `truthy`: an empty string is falsy.
  Truthiness of optional numeric ids is modelled by `idTruthy`.
- `async/await` sequencing is pure state passing; `throw` becomes
  `Except ServiceError`.  The engine only throws before its first write, so
  the uninstrumented model returns the unchanged store on error.  Failures of
  store operations themselves are modelled separately by an instrumented
  variant of the merge path (`linkExistingPrimariesF`) driven by a failure
  index, and concurrency by explicitly interleaving the read and write phases
  of two `identify` calls.
- The Redis/in-memory caching wrapper around `identifyContact` is out of core
  scope; the model is the uncached pipeline (validation, candidate lookup,
  classification, execution, response formatting).
-/

/-- `LinkPrecedence` enum from `contact.types.ts`. -/
inductive LinkPrecedence where
  | primary
  | secondary
deriving DecidableEq, Repr

/-- `ContactLinkingStrategy` enum from `contact.types.ts`. -/
inductive ContactLinkingStrategy where
  | CREATE_NEW_PRIMARY
  | CREATE_SECONDARY
  | LINK_EXISTING_PRIMARIES
  | RETURN_EXISTING
deriving DecidableEq, Repr

/-- The `Contact` row interface (`contact.types.ts`): `null` columns are
`none`; timestamps are logical `Nat` instants. -/
structure Contact where
  id : Nat
  phoneNumber : Option String
  email : Option String
  linkedId : Option Nat
  linkPrecedence : LinkPrecedence
  createdAt : Nat
  updatedAt : Nat
  deletedAt : Option Nat
deriving DecidableEq, Repr

/-- The `IdentifyRequest` observation (`email?`, `phoneNumber?`). -/
structure IdentifyRequest where
  email : Option String
  phoneNumber : Option String
deriving DecidableEq, Repr

/-- Error taxonomy: `ValidationError` thrown by the service,
plain `Error`s thrown by the engine, store failures for the
instrumented executor. -/
inductive ServiceError where
  | validation (msg : String)
  | linking (msg : String)
  | storeFailure
deriving DecidableEq, Repr

/-- `StrategyExecutionResult` from `contact-linking-engine.ts`. -/
structure StrategyExecutionResult where
  primaryContact : Contact
  allLinkedContacts : List Contact
deriving DecidableEq, Repr

/-- The `contact` object of `IdentifyResponse` (`api.types.ts`). -/
structure ContactView where
  primaryContactId : Nat
  emails : List String
  phoneNumbers : List String
  secondaryContactIds : List Nat
deriving DecidableEq, Repr

/-- `IdentifyResponse` returned by `ContactService.identifyContact`. -/
structure IdentifyResponse where
  contact : ContactView
deriving DecidableEq, Repr

/-- The database: rows in insertion order, the next id the sequence will
assign, and the current logical time used for fresh timestamps. -/
structure Store where
  contacts : List Contact
  nextId : Nat
  now : Nat
deriving DecidableEq, Repr

/-- JavaScript truthiness of an optional string: `undefined`, `null` and
the empty string are falsy. -/
def truthy : Option String → Bool
  | none => false
  | some s => s ≠ ""

/-- JavaScript truthiness of an optional numeric id: `undefined`, `null`
and `0` are falsy. -/
def idTruthy : Option Nat → Bool
  | none => false
  | some n => n ≠ 0

/-- Stable insertion of `a` after every element `b` of the accumulator with
`le b a` (i.e. whose sort key is not larger).  Used to model SQL
`ORDER BY` / JavaScript `Array.prototype.sort`, both of which are stable
here (rows with equal keys keep their original relative order). -/
def insertStable (le : Contact → Contact → Bool) (a : Contact) : List Contact → List Contact
  | [] => [a]
  | b :: l => if le b a then b :: insertStable le a l else a :: b :: l

/-- Stable sort: fold the input left-to-right, inserting each element after
all earlier elements whose key is ≤ its own. -/
def stableSort (le : Contact → Contact → Bool) (l : List Contact) : List Contact :=
  l.foldl (fun acc a => insertStable le a acc) []

/-- Sort key of `orderBy: { createdAt: 'asc' }`. -/
def createdLe (a b : Contact) : Bool := a.createdAt ≤ b.createdAt

/-- `linkPrecedence` sorts `'primary'` before `'secondary'`. -/
def precRank : LinkPrecedence → Nat
  | .primary => 0
  | .secondary => 1

/-- Sort key of `orderBy: [{ linkPrecedence: 'asc' }, { createdAt: 'asc' }]`
in `findLinkedContacts`. -/
def linkedKeyLe (a b : Contact) : Bool :=
  precRank a.linkPrecedence < precRank b.linkPrecedence ||
    (precRank a.linkPrecedence == precRank b.linkPrecedence && a.createdAt ≤ b.createdAt)

namespace ContactRepository

/-- `prisma.contact.findUnique({ where: { id } })` (ids are unique). -/
def findUnique (s : Store) (i : Nat) : Option Contact :=
  s.contacts.find? (fun c => c.id == i)

/-- `PrismaContactRepository.findByEmailOrPhoneNumber`: empty result when
both arguments are falsy, otherwise the non-deleted rows whose email or
phone equals a supplied (truthy) value, ordered by `createdAt` ascending. -/
def findByEmailOrPhoneNumber (s : Store) (email phoneNumber : Option String) : List Contact :=
  if ¬ truthy email ∧ ¬ truthy phoneNumber then []
  else
    stableSort createdLe
      (s.contacts.filter (fun c =>
        c.deletedAt == none &&
          ((truthy email && c.email == email) ||
            (truthy phoneNumber && c.phoneNumber == phoneNumber))))

/-- `PrismaContactRepository.findLinkedContacts`: non-deleted rows with
`id = primaryId` or `linkedId = primaryId`, ordered by precedence then
`createdAt`. -/
def findLinkedContacts (s : Store) (primaryId : Nat) : List Contact :=
  stableSort linkedKeyLe
    (s.contacts.filter (fun c =>
      c.deletedAt == none && (c.id == primaryId || c.linkedId == some primaryId)))

/-- `PrismaContactRepository.create`: the row receives the next id and fresh
timestamps; `data.email || null` and `data.linkedId || null` coerce falsy
values to `null`. -/
def create (s : Store) (email phoneNumber : Option String) (linkedId : Option Nat)
    (linkPrecedence : LinkPrecedence) : Contact × Store :=
  let c : Contact :=
    { id := s.nextId
      email := if truthy email then email else none
      phoneNumber := if truthy phoneNumber then phoneNumber else none
      linkedId := if idTruthy linkedId then linkedId else none
      linkPrecedence := linkPrecedence
      createdAt := s.now
      updatedAt := s.now
      deletedAt := none }
  (c, { contacts := s.contacts ++ [c], nextId := s.nextId + 1, now := s.now })

/-- `PrismaContactRepository.update` restricted to the fields the engine ever
writes (`linkedId`, `linkPrecedence`, `updatedAt`). -/
def update (s : Store) (i : Nat) (linkedId : Option Nat) (linkPrecedence : LinkPrecedence) : Store :=
  { s with
    contacts := s.contacts.map (fun c =>
      if c.id = i then
        { c with linkedId := linkedId, linkPrecedence := linkPrecedence, updatedAt := s.now }
      else c) }

/-- `PrismaContactRepository.findPrimaryContact`: fetch the row; if it is
primary return it, otherwise follow one (truthy) `linkedId` hop and return
the target when it exists and is not deleted. -/
def findPrimaryContact (s : Store) (contactId : Nat) : Option Contact :=
  match findUnique s contactId with
  | none => none
  | some c =>
    if c.deletedAt ≠ none then none
    else if c.linkPrecedence = .primary then some c
    else if idTruthy c.linkedId then
      match c.linkedId with
      | some l =>
        match findUnique s l with
        | some p => if p.deletedAt = none then some p else none
        | none => none
      | none => none
    else none

end ContactRepository

namespace ContactLinkingEngine

open ContactRepository

/-- `ContactLinkingEngine.findExactMatch`: the first candidate for which
`request.email ? contact.email === request.email : !contact.email` and the
phone analogue both hold. -/
def findExactMatch (existingContacts : List Contact) (request : IdentifyRequest) : Option Contact :=
  existingContacts.find? (fun c =>
    (if truthy request.email then c.email == request.email else ¬ truthy c.email) &&
      (if truthy request.phoneNumber then c.phoneNumber == request.phoneNumber
       else ¬ truthy c.phoneNumber))

/-- `ContactLinkingEngine.determineContactStrategy`. -/
def determineContactStrategy (existingContacts : List Contact)
    (request : IdentifyRequest) : ContactLinkingStrategy :=
  if existingContacts.length = 0 then .CREATE_NEW_PRIMARY
  else if (findExactMatch existingContacts request).isSome then .RETURN_EXISTING
  else if 1 < (existingContacts.filter (fun c => c.linkPrecedence == .primary)).length then
    .LINK_EXISTING_PRIMARIES
  else .CREATE_SECONDARY

/-- Loop of `ContactLinkingEngine.findPrimaryFromContacts`: walk the list and
resolve the first secondary contact (with a truthy `linkedId`) whose primary
the repository can find. -/
def findPrimaryFromContactsLoop (s : Store) : List Contact → Option Contact
  | [] => none
  | c :: rest =>
    if c.linkPrecedence = .secondary ∧ idTruthy c.linkedId then
      match findPrimaryContact s c.id with
      | some p => some p
      | none => findPrimaryFromContactsLoop s rest
    else findPrimaryFromContactsLoop s rest

/-- `ContactLinkingEngine.findPrimaryFromContacts`: a primary in the list if
any, otherwise resolve one through the repository, otherwise throw. -/
def findPrimaryFromContacts (s : Store) (contacts : List Contact) : Except ServiceError Contact :=
  match contacts.find? (fun c => c.linkPrecedence == .primary) with
  | some p => .ok p
  | none =>
    match findPrimaryFromContactsLoop s contacts with
    | some p => .ok p
    | none => .error (.linking "No primary contact found in the contact chain")

/-- `ContactLinkingEngine.createNewPrimary`. -/
def createNewPrimary (s : Store) (request : IdentifyRequest) : StrategyExecutionResult × Store :=
  let (c, s') := create s request.email request.phoneNumber none .primary
  ({ primaryContact := c, allLinkedContacts := [c] }, s')

/-- `ContactLinkingEngine.returnExisting`: re-checks the exact match, resolves
the primary and reads the linked contacts; performs no writes. -/
def returnExisting (s : Store) (existingContacts : List Contact)
    (request : IdentifyRequest) : Except ServiceError (StrategyExecutionResult × Store) :=
  match findExactMatch existingContacts request with
  | none => .error (.linking "Exact match not found in existing contacts")
  | some _ =>
    match findPrimaryFromContacts s existingContacts with
    | .error e => .error e
    | .ok primaryContact =>
      .ok ({ primaryContact := primaryContact,
             allLinkedContacts := findLinkedContacts s primaryContact.id }, s)

/-- `ContactLinkingEngine.createSecondary`: insert one secondary row linked to
the resolved primary, then re-read the component. -/
def createSecondary (s : Store) (existingContacts : List Contact)
    (request : IdentifyRequest) : Except ServiceError (StrategyExecutionResult × Store) :=
  match findPrimaryFromContacts s existingContacts with
  | .error e => .error e
  | .ok primaryContact =>
    let (_, s') := create s request.email request.phoneNumber (some primaryContact.id) .secondary
    .ok ({ primaryContact := primaryContact,
           allLinkedContacts := findLinkedContacts s' primaryContact.id }, s')

/-- `ContactLinkingEngine.convertPrimaryToSecondary`: demote the contact to a
secondary of `newPrimaryId`, then re-point every remaining secondary of its
old component to `newPrimaryId`. -/
def convertPrimaryToSecondary (s : Store) (primaryToConvert : Contact) (newPrimaryId : Nat) : Store :=
  let s1 := update s primaryToConvert.id (some newPrimaryId) .secondary
  let linkedContacts := findLinkedContacts s1 primaryToConvert.id
  let secondaryContacts := linkedContacts.filter (fun c =>
    c.linkPrecedence == .secondary && c.id != primaryToConvert.id)
  secondaryContacts.foldl (fun st c => update st c.id (some newPrimaryId) .secondary) s1

/-- `ContactLinkingEngine.linkExistingPrimaries`: sort the primaries by
`createdAt` (stable), keep the oldest, demote the rest, insert one new
secondary from the request, and re-read the component. -/
def linkExistingPrimaries (s : Store) (existingContacts : List Contact)
    (request : IdentifyRequest) : Except ServiceError (StrategyExecutionResult × Store) :=
  let primaryContacts := existingContacts.filter (fun c => c.linkPrecedence == .primary)
  if primaryContacts.length < 2 then
    .error (.linking "Expected at least 2 primary contacts for linking")
  else
    match stableSort createdLe primaryContacts with
    | [] => .error (.linking "No primary contact found after sorting")
    | oldestPrimary :: newerPrimaries =>
      let s1 := newerPrimaries.foldl
        (fun st p => convertPrimaryToSecondary st p oldestPrimary.id) s
      let (_, s2) := create s1 request.email request.phoneNumber (some oldestPrimary.id) .secondary
      .ok ({ primaryContact := oldestPrimary,
             allLinkedContacts := findLinkedContacts s2 oldestPrimary.id }, s2)

/-- `ContactLinkingEngine.executeStrategy`. -/
def executeStrategy (s : Store) (strategy : ContactLinkingStrategy)
    (existingContacts : List Contact) (request : IdentifyRequest) :
    Except ServiceError (StrategyExecutionResult × Store) :=
  match strategy with
  | .CREATE_NEW_PRIMARY => .ok (createNewPrimary s request)
  | .RETURN_EXISTING => returnExisting s existingContacts request
  | .CREATE_SECONDARY => createSecondary s existingContacts request
  | .LINK_EXISTING_PRIMARIES => linkExistingPrimaries s existingContacts request

end ContactLinkingEngine

namespace ContactService

open ContactRepository ContactLinkingEngine

/-- `ContactService.extractUniqueEmails` body step: push a truthy,
not-yet-seen email. -/
def emailsStep (acc : List String) (c : Contact) : List String :=
  match c.email with
  | some v => if v ≠ "" ∧ ¬ acc.contains v then acc ++ [v] else acc
  | none => acc

/-- `ContactService.extractUniqueEmails`: the primary's (truthy) email first,
then each contact's email in list order, skipping falsy and already-seen
values. -/
def extractUniqueEmails (allContacts : List Contact) (primaryContact : Contact) : List String :=
  let init : List String :=
    match primaryContact.email with
    | some v => if v ≠ "" then [v] else []
    | none => []
  allContacts.foldl emailsStep init

/-- `ContactService.extractUniquePhoneNumbers` body step. -/
def phonesStep (acc : List String) (c : Contact) : List String :=
  match c.phoneNumber with
  | some v => if v ≠ "" ∧ ¬ acc.contains v then acc ++ [v] else acc
  | none => acc

/-- `ContactService.extractUniquePhoneNumbers`. -/
def extractUniquePhoneNumbers (allContacts : List Contact) (primaryContact : Contact) : List String :=
  let init : List String :=
    match primaryContact.phoneNumber with
    | some v => if v ≠ "" then [v] else []
    | none => []
  allContacts.foldl phonesStep init

/-- `ContactService.formatIdentifyResponse`. -/
def formatIdentifyResponse (result : StrategyExecutionResult) : IdentifyResponse :=
  { contact :=
      { primaryContactId := result.primaryContact.id
        emails := extractUniqueEmails result.allLinkedContacts result.primaryContact
        phoneNumbers := extractUniquePhoneNumbers result.allLinkedContacts result.primaryContact
        secondaryContactIds :=
          (result.allLinkedContacts.filter (fun c =>
            c.id != result.primaryContact.id && c.linkPrecedence == .secondary)).map
            (fun c => c.id) } }

/-- `ContactService.identifyContact` (uncached pipeline): validate, read the
candidates, classify, execute, format.  The store is returned alongside the
outcome; every error is thrown before the first write, so the store is
unchanged on error. -/
def identifyContact (s : Store) (request : IdentifyRequest) :
    Except ServiceError IdentifyResponse × Store :=
  if ¬ truthy request.email ∧ ¬ truthy request.phoneNumber then
    (.error (.validation "Either email or phoneNumber must be provided"), s)
  else
    let existingContacts := findByEmailOrPhoneNumber s request.email request.phoneNumber
    let strategy := determineContactStrategy existingContacts request
    match executeStrategy s strategy existingContacts request with
    | .error e => (.error e, s)
    | .ok (result, s') => (.ok (formatIdentifyResponse result), s')

end ContactService
/-! ### Generic facts about the stable insertion sort -/

theorem insertStable_perm (le : Contact → Contact → Bool) (a : Contact) :
    ∀ l : List Contact, (insertStable le a l).Perm (a :: l) := by
  intro l
  induction l with
  | nil => simp [insertStable]
  | cons b l ih =>
    by_cases h : le b a
    · simp only [insertStable, h, if_true]
      exact ((ih.cons b).trans (List.Perm.swap a b l))
    · simp [insertStable, h]

theorem mem_insertStable {le : Contact → Contact → Bool} {a x : Contact} {l : List Contact} :
    x ∈ insertStable le a l ↔ x = a ∨ x ∈ l := by
  rw [(insertStable_perm le a l).mem_iff]
  simp

theorem foldl_insertStable_perm (le : Contact → Contact → Bool) :
    ∀ (l acc : List Contact),
      (l.foldl (fun acc a => insertStable le a acc) acc).Perm (acc ++ l) := by
  intro l
  induction l with
  | nil => intro acc; simp
  | cons a l ih =>
    intro acc
    simp only [List.foldl_cons]
    refine (ih (insertStable le a acc)).trans ?_
    refine (List.Perm.append_right l (insertStable_perm le a acc)).trans ?_
    exact List.perm_middle.symm

theorem stableSort_perm (le : Contact → Contact → Bool) (l : List Contact) :
    (stableSort le l).Perm l := by
  simpa using foldl_insertStable_perm le l []

theorem mem_stableSort {le : Contact → Contact → Bool} {x : Contact} {l : List Contact} :
    x ∈ stableSort le l ↔ x ∈ l :=
  (stableSort_perm le l).mem_iff

theorem insertStable_append {le : Contact → Contact → Bool} {a : Contact} {l : List Contact}
    (h : ∀ b ∈ l, le b a = true) : insertStable le a l = l ++ [a] := by
  induction l with
  | nil => rfl
  | cons b l ih =>
    have hb : le b a = true := h b (List.mem_cons_self b l)
    simp only [insertStable, hb, if_true, List.cons_append]
    exact congrArg (b :: ·) (ih fun c hc => h c (List.mem_cons_of_mem b hc))

theorem foldl_insertStable_sorted (le : Contact → Contact → Bool) :
    ∀ (l acc : List Contact), (∀ b ∈ acc, ∀ a ∈ l, le b a = true) →
      l.Pairwise (fun x y => le x y = true) →
      l.foldl (fun acc a => insertStable le a acc) acc = acc ++ l := by
  intro l
  induction l with
  | nil => intro acc _ _; simp
  | cons a l ih =>
    intro acc hmix hl
    simp only [List.foldl_cons]
    have hstep : insertStable le a acc = acc ++ [a] :=
      insertStable_append (fun b hb => hmix b hb a (List.mem_cons_self a l))
    rw [hstep, ih (acc ++ [a]) ?_ hl.of_cons]
    · simp
    · intro b hb x hx
      rcases List.mem_append.1 hb with hb | hb
      · exact hmix b hb x (List.mem_cons_of_mem a hx)
      · simp only [List.mem_singleton] at hb
        subst hb
        exact (List.pairwise_cons.1 hl).1 x hx

theorem stableSort_of_sorted {le : Contact → Contact → Bool} {l : List Contact}
    (h : l.Pairwise (fun x y => le x y = true)) : stableSort le l = l := by
  simpa [stableSort] using foldl_insertStable_sorted le l [] (by simp) h

theorem insertStable_pairwise {le : Contact → Contact → Bool} {lex : Contact → Contact → Prop}
    (hC : ∀ x y, lex x y → le x y = true)
    (hT : ∀ x y z, le x y = true → le y z = true → le x z = true)
    {a : Contact} :
    ∀ {acc : List Contact}, acc.Pairwise lex →
      (∀ b ∈ acc, le b a = true → lex b a) →
      (∀ b ∈ acc, le b a = false → lex a b) →
      (insertStable le a acc).Pairwise lex := by
  intro acc
  induction acc with
  | nil => intro _ _ _; simp [insertStable]
  | cons b l ih =>
    intro hacc h1 h2
    rcases List.pairwise_cons.1 hacc with ⟨hb, hl⟩
    by_cases hba : le b a
    · simp only [insertStable, hba, if_true]
      refine List.pairwise_cons.2 ⟨?_, ?_⟩
      · intro x hx
        rcases mem_insertStable.1 hx with rfl | hx
        · exact h1 b (List.mem_cons_self b l) hba
        · exact hb x hx
      · exact ih hl (fun c hc => h1 c (List.mem_cons_of_mem b hc))
          (fun c hc => h2 c (List.mem_cons_of_mem b hc))
    · simp only [insertStable, hba, if_false]
      refine List.pairwise_cons.2 ⟨?_, hacc⟩
      intro x hx
      rcases List.mem_cons.1 hx with rfl | hx
      · exact h2 x (List.mem_cons_self x l) (by simpa using hba)
      · by_cases hxa : le x a
        · exact absurd (hT b x a (hC b x (hb x hx)) hxa) (by simpa using hba)
        · exact h2 x (List.mem_cons_of_mem b hx) (by simpa using hxa)

theorem foldl_insertStable_pairwise {le : Contact → Contact → Bool}
    {lex : Contact → Contact → Prop}
    (hC : ∀ x y, lex x y → le x y = true)
    (hT : ∀ x y z, le x y = true → le y z = true → le x z = true) :
    ∀ (l acc : List Contact), acc.Pairwise lex →
      (∀ b ∈ acc, ∀ a ∈ l, (le b a = true → lex b a) ∧ (le b a = false → lex a b)) →
      l.Pairwise (fun b a => (le b a = true → lex b a) ∧ (le b a = false → lex a b)) →
      (l.foldl (fun acc a => insertStable le a acc) acc).Pairwise lex := by
  intro l
  induction l with
  | nil => intro acc hacc _ _; simpa using hacc
  | cons a l ih =>
    intro acc hacc hmix hl
    simp only [List.foldl_cons]
    refine ih (insertStable le a acc) ?_ ?_ hl.of_cons
    · exact insertStable_pairwise hC hT hacc
        (fun b hb => (hmix b hb a (List.mem_cons_self a l)).1)
        (fun b hb => (hmix b hb a (List.mem_cons_self a l)).2)
    · intro b hb x hx
      rcases mem_insertStable.1 hb with rfl | hb
      · exact (List.pairwise_cons.1 hl).1 x hx
      · exact hmix b hb x (List.mem_cons_of_mem a hx)

theorem stableSort_pairwise {le : Contact → Contact → Bool} {lex : Contact → Contact → Prop}
    (hC : ∀ x y, lex x y → le x y = true)
    (hT : ∀ x y z, le x y = true → le y z = true → le x z = true)
    {l : List Contact}
    (hl : l.Pairwise (fun b a => (le b a = true → lex b a) ∧ (le b a = false → lex a b))) :
    (stableSort le l).Pairwise lex :=
  foldl_insertStable_pairwise hC hT l [] (by simp) (by simp) hl
/-! ### Store well-formedness and the no-chains invariant -/

/-- Well-formed database: rows in strictly increasing id order (ids are
assigned by an increasing sequence and rows are kept in insertion order),
every id positive and below the sequence value. -/
def WF (s : Store) : Prop :=
  s.contacts.Pairwise (fun a b => a.id < b.id) ∧
    (∀ c ∈ s.contacts, c.id < s.nextId) ∧
    (∀ c ∈ s.contacts, 0 < c.id) ∧ 0 < s.nextId

instance (s : Store) : Decidable (WF s) := by
  unfold WF; infer_instance

/-- No chains: a non-deleted secondary row's `linkedId`, when set, is the id
of an existing primary row. -/
def NoChains (s : Store) : Prop :=
  ∀ c ∈ s.contacts, c.deletedAt = none → c.linkPrecedence = .secondary →
    (c.linkedId = none ∨
      ∃ p ∈ s.contacts, c.linkedId = some p.id ∧ p.linkPrecedence = .primary)

instance (s : Store) : Decidable (NoChains s) := by
  unfold NoChains; infer_instance

theorem pairwise_id_unique :
    ∀ {l : List Contact}, l.Pairwise (fun a b => a.id < b.id) →
      ∀ {a b : Contact}, a ∈ l → b ∈ l → a.id = b.id → a = b := by
  intro l
  induction l with
  | nil => intro _ a b ha; cases ha
  | cons x l ih =>
    intro hp a b ha hb hab
    rcases List.pairwise_cons.1 hp with ⟨hx, hl⟩
    rcases List.mem_cons.1 ha with rfl | ha
    · rcases List.mem_cons.1 hb with rfl | hb
      · rfl
      · exact absurd hab (Nat.ne_of_lt (hx b hb))
    · rcases List.mem_cons.1 hb with hbx | hb
      · rw [hbx] at hab
        exact absurd hab.symm (Nat.ne_of_lt (hx a ha))
      · exact ih hl ha hb hab

theorem WF.uniqueId {s : Store} (h : WF s) :
    ∀ {a b : Contact}, a ∈ s.contacts → b ∈ s.contacts → a.id = b.id → a = b :=
  pairwise_id_unique h.1

theorem find?_id_of_mem :
    ∀ {l : List Contact}, l.Pairwise (fun a b => a.id < b.id) →
      ∀ {c : Contact}, c ∈ l → l.find? (fun b => b.id == c.id) = some c := by
  intro l
  induction l with
  | nil => intro _ c hc; cases hc
  | cons x l ih =>
    intro hp c hc
    rcases List.pairwise_cons.1 hp with ⟨hx, hl⟩
    rcases List.mem_cons.1 hc with rfl | hc
    · simp [List.find?_cons]
    · have hne : x.id ≠ c.id := Nat.ne_of_lt (hx c hc)
      rw [List.find?_cons_of_neg _ (by simpa using hne)]
      exact ih hl hc

theorem findUnique_of_mem {s : Store} (h : WF s) {c : Contact} (hc : c ∈ s.contacts) :
    ContactRepository.findUnique s c.id = some c :=
  find?_id_of_mem h.1 hc
/-! ### Characterizing updates and `convertPrimaryToSecondary` as maps -/

/-- The field change performed by every `update` the engine issues. -/
def repoint (li : Option Nat) (pr : LinkPrecedence) (now : Nat) (c : Contact) : Contact :=
  { c with linkedId := li, linkPrecedence := pr, updatedAt := now }

theorem repoint_id (li pr now c) : (repoint li pr now c).id = c.id := rfl

theorem repoint_repoint (li pr now c) :
    repoint li pr now (repoint li pr now c) = repoint li pr now c := rfl

theorem update_contacts (s : Store) (i : Nat) (li : Option Nat) (pr : LinkPrecedence) :
    (ContactRepository.update s i li pr).contacts =
      s.contacts.map (fun c => if c.id = i then repoint li pr s.now c else c) := rfl

theorem update_nextId (s : Store) (i : Nat) (li : Option Nat) (pr : LinkPrecedence) :
    (ContactRepository.update s i li pr).nextId = s.nextId := rfl

theorem update_now (s : Store) (i : Nat) (li : Option Nat) (pr : LinkPrecedence) :
    (ContactRepository.update s i li pr).now = s.now := rfl

theorem foldl_update_now (li : Option Nat) (pr : LinkPrecedence) :
    ∀ (L : List Contact) (st : Store),
      (L.foldl (fun st c => ContactRepository.update st c.id li pr) st).now = st.now ∧
      (L.foldl (fun st c => ContactRepository.update st c.id li pr) st).nextId = st.nextId := by
  intro L
  induction L with
  | nil => intro st; exact ⟨rfl, rfl⟩
  | cons a L ih =>
    intro st
    simpa [List.foldl_cons, update_now, update_nextId] using
      ih (ContactRepository.update st a.id li pr)

theorem foldl_update_contacts (li : Option Nat) (pr : LinkPrecedence) :
    ∀ (L : List Contact) (st : Store),
      (L.foldl (fun st c => ContactRepository.update st c.id li pr) st).contacts =
        st.contacts.map (fun c =>
          if L.any (fun x => x.id == c.id) then repoint li pr st.now c else c) := by
  intro L
  induction L with
  | nil => intro st; simp
  | cons a L ih =>
    intro st
    simp only [List.foldl_cons]
    rw [ih (ContactRepository.update st a.id li pr), update_contacts, update_now,
      List.map_map]
    refine List.map_congr_left ?_
    intro c _
    by_cases hc : c.id = a.id
    · simp [Function.comp, hc, repoint_id, repoint_repoint, List.any_cons]
    · simp [Function.comp, hc, List.any_cons, Ne.symm]

theorem mem_findLinkedContacts {s : Store} {pid : Nat} {c : Contact} :
    c ∈ ContactRepository.findLinkedContacts s pid ↔
      c ∈ s.contacts ∧ c.deletedAt = none ∧ (c.id = pid ∨ c.linkedId = some pid) := by
  simp only [ContactRepository.findLinkedContacts, mem_stableSort, List.mem_filter,
    Bool.and_eq_true, Bool.or_eq_true, beq_iff_eq]

/-- Effect of `convertPrimaryToSecondary` on a single row: the demoted
primary itself and every non-deleted secondary that pointed at it are
re-pointed to `tgt`; every other row is untouched. -/
def convF (qid tgt now : Nat) (c : Contact) : Contact :=
  if c.id = qid then repoint (some tgt) .secondary now c
  else if c.deletedAt = none ∧ c.linkPrecedence = .secondary ∧ c.linkedId = some qid then
    repoint (some tgt) .secondary now c
  else c

theorem convF_id (qid tgt now : Nat) (c : Contact) : (convF qid tgt now c).id = c.id := by
  unfold convF
  by_cases h1 : c.id = qid
  · simp [h1, repoint_id]
  · by_cases h2 : c.deletedAt = none ∧ c.linkPrecedence = .secondary ∧ c.linkedId = some qid
    · simp [h1, h2, repoint_id]
    · simp [h1, h2]

theorem convert_eq_map {s : Store} (hpw : s.contacts.Pairwise (fun a b => a.id < b.id))
    (q : Contact) (tgt : Nat) :
    (ContactLinkingEngine.convertPrimaryToSecondary s q tgt).contacts =
        s.contacts.map (convF q.id tgt s.now) ∧
      (ContactLinkingEngine.convertPrimaryToSecondary s q tgt).nextId = s.nextId ∧
      (ContactLinkingEngine.convertPrimaryToSecondary s q tgt).now = s.now := by
  unfold ContactLinkingEngine.convertPrimaryToSecondary
  set s1 := ContactRepository.update s q.id (some tgt) .secondary with hs1
  set linked := ContactRepository.findLinkedContacts s1 q.id with hlinked
  set secs := linked.filter (fun c =>
    c.linkPrecedence == LinkPrecedence.secondary && c.id != q.id) with hsecs
  have hs1c : s1.contacts = s.contacts.map
      (fun c => if c.id = q.id then repoint (some tgt) .secondary s.now c else c) := rfl
  have hid : ∀ c : Contact,
      ((fun c => if c.id = q.id then repoint (some tgt) .secondary s.now c else c) c).id = c.id := by
    intro c
    by_cases h : c.id = q.id <;> simp [h, repoint_id]
  have hs1pw : s1.contacts.Pairwise (fun a b => a.id < b.id) := by
    rw [hs1c, List.pairwise_map]
    refine hpw.imp ?_
    intro a b h
    rw [hid, hid]
    exact h
  have hsecs_ne : ∀ x ∈ secs, x.id ≠ q.id := by
    intro x hx
    have := (List.mem_filter.1 (hsecs ▸ hx)).2
    simp only [Bool.and_eq_true, bne_iff_ne, ne_eq] at this
    exact this.2
  have hsecs_mem : ∀ x ∈ secs, x ∈ s1.contacts ∧ x.deletedAt = none ∧
      x.linkedId = some q.id ∧ x.linkPrecedence = .secondary := by
    intro x hx
    have h2 := List.mem_filter.1 (hsecs ▸ hx)
    have h1 := mem_findLinkedContacts.1 (hlinked ▸ h2.1)
    simp only [Bool.and_eq_true, beq_iff_eq, bne_iff_ne, ne_eq] at h2
    rcases h1.2.2 with hid' | hlid
    · exact absurd hid' h2.2.2
    · exact ⟨h1.1, h1.2.1, hlid, h2.2.1⟩
  refine ⟨?_, ?_, ?_⟩
  · rw [foldl_update_contacts, hs1c, update_now, List.map_map]
    refine List.map_congr_left ?_
    intro c hc
    by_cases hcq : c.id = q.id
    · have hnoc : secs.any
          (fun x => x.id == (repoint (some tgt) .secondary s.now c).id) = false := by
        rw [List.any_eq_false]
        intro x hx
        simp only [beq_iff_eq, repoint_id]
        rw [hcq]
        exact fun h => hsecs_ne x hx h
      simp [Function.comp, hcq, hnoc, convF]
    · have hin : c ∈ s1.contacts := by
        rw [hs1c]
        have heq : (if c.id = q.id then repoint (some tgt) .secondary s.now c else c) = c := by
          simp [hcq]
        exact heq ▸ List.mem_map_of_mem _ hc
      have key : secs.any (fun x => x.id == c.id) = true ↔
          (c.deletedAt = none ∧ c.linkPrecedence = .secondary ∧ c.linkedId = some q.id) := by
        constructor
        · intro hany
          rcases List.any_eq_true.1 hany with ⟨x, hx, hxid⟩
          simp only [beq_iff_eq] at hxid
          rcases hsecs_mem x hx with ⟨hxin, hxdel, hxlid, hxsec⟩
          have hxc : x = c := pairwise_id_unique hs1pw hxin hin hxid
          subst hxc
          exact ⟨hxdel, hxsec, hxlid⟩
        · intro hcond
          refine List.any_eq_true.2 ⟨c, ?_, by simp⟩
          rw [hsecs]
          refine List.mem_filter.2 ⟨?_, ?_⟩
          · rw [hlinked]
            exact mem_findLinkedContacts.2 ⟨hin, hcond.1, Or.inr hcond.2.2⟩
          · simp [hcond.2.1, hcq]
      by_cases hcond : c.deletedAt = none ∧ c.linkPrecedence = .secondary ∧ c.linkedId = some q.id
      · have hany : secs.any (fun x => x.id == c.id) = true := key.2 hcond
        simp [Function.comp, hcq, hany, hcond, convF]
      · have hany : secs.any (fun x => x.id == c.id) = false := by
          rcases Bool.eq_false_or_eq_true (secs.any (fun x => x.id == c.id)) with h | h
          · exact absurd (key.1 h) hcond
          · exact h
        simp [Function.comp, hcq, hany, hcond, convF]
  · rw [(foldl_update_now _ _ _ _).2]
    rfl
  · rw [(foldl_update_now _ _ _ _).1]
    rfl
theorem repoint_linkedId (li pr now c) : (repoint li pr now c).linkedId = li := rfl

theorem repoint_linkPrecedence (li pr now c) : (repoint li pr now c).linkPrecedence = pr := rfl

theorem repoint_deletedAt (li pr now c) : (repoint li pr now c).deletedAt = c.deletedAt := rfl

theorem convF_eq_of_id {qid : Nat} {c : Contact} (tgt now : Nat) (h : c.id = qid) :
    convF qid tgt now c = repoint (some tgt) .secondary now c := by
  simp [convF, h]

theorem convF_eq_of_link {qid : Nat} {c : Contact} (tgt now : Nat) (h1 : c.id ≠ qid)
    (h2 : c.deletedAt = none ∧ c.linkPrecedence = .secondary ∧ c.linkedId = some qid) :
    convF qid tgt now c = repoint (some tgt) .secondary now c := by
  simp [convF, h1, h2]

theorem convF_eq_self {qid : Nat} {c : Contact} (tgt now : Nat) (h1 : c.id ≠ qid)
    (h2 : ¬(c.deletedAt = none ∧ c.linkPrecedence = .secondary ∧ c.linkedId = some qid)) :
    convF qid tgt now c = c := by
  simp [convF, h1, h2]

/-- One `convertPrimaryToSecondary` call: preserves well-formedness, sizes,
the clock and id sequence, the no-chains invariant and the primary target
row; demotes the row with the converted id and re-points the non-deleted
secondaries that referenced it; leaves every other row untouched. -/
theorem convert_step (s : Store) (q : Contact) (tgt : Nat)
    (hWF : WF s) (hNC : NoChains s) (hqt : q.id ≠ tgt)
    (hr : ∃ r ∈ s.contacts, r.id = tgt ∧ r.linkPrecedence = .primary ∧ r.deletedAt = none) :
    WF (ContactLinkingEngine.convertPrimaryToSecondary s q tgt) ∧
      (ContactLinkingEngine.convertPrimaryToSecondary s q tgt).nextId = s.nextId ∧
      (ContactLinkingEngine.convertPrimaryToSecondary s q tgt).now = s.now ∧
      (ContactLinkingEngine.convertPrimaryToSecondary s q tgt).contacts.length =
        s.contacts.length ∧
      NoChains (ContactLinkingEngine.convertPrimaryToSecondary s q tgt) ∧
      (∃ r ∈ (ContactLinkingEngine.convertPrimaryToSecondary s q tgt).contacts,
        r.id = tgt ∧ r.linkPrecedence = .primary ∧ r.deletedAt = none) ∧
      (∀ c ∈ s.contacts, c.id ≠ q.id →
        ¬(c.deletedAt = none ∧ c.linkPrecedence = .secondary ∧ c.linkedId = some q.id) →
        c ∈ (ContactLinkingEngine.convertPrimaryToSecondary s q tgt).contacts) ∧
      (∀ c ∈ s.contacts, c.id = q.id →
        repoint (some tgt) .secondary s.now c ∈
          (ContactLinkingEngine.convertPrimaryToSecondary s q tgt).contacts) ∧
      (∀ c ∈ s.contacts, c.deletedAt = none → c.linkPrecedence = .secondary →
        c.linkedId = some q.id →
        repoint (some tgt) .secondary s.now c ∈
          (ContactLinkingEngine.convertPrimaryToSecondary s q tgt).contacts) := by
  rcases convert_eq_map hWF.1 q tgt with ⟨hmap, hnext, hnow⟩
  rcases hr with ⟨r, hrmem, hrid, hrprim, hrdel⟩
  have hrconv : convF q.id tgt s.now r = r := by
    refine convF_eq_self _ _ (by rw [hrid]; exact Ne.symm hqt) ?_
    intro hcond
    rw [hrprim] at hcond
    exact absurd hcond.2.1 (by simp)
  refine ⟨?_, hnext, hnow, ?_, ?_, ?_, ?_, ?_, ?_⟩
  · refine ⟨?_, ?_, ?_, ?_⟩
    · rw [hmap, List.pairwise_map]
      refine hWF.1.imp ?_
      intro a b h
      rw [convF_id, convF_id]
      exact h
    · intro c hc
      rw [hmap] at hc
      rcases List.mem_map.1 hc with ⟨c0, hc0, rfl⟩
      rw [convF_id, hnext]
      exact hWF.2.1 c0 hc0
    · intro c hc
      rw [hmap] at hc
      rcases List.mem_map.1 hc with ⟨c0, hc0, rfl⟩
      rw [convF_id]
      exact hWF.2.2.1 c0 hc0
    · rw [hnext]
      exact hWF.2.2.2
  · rw [hmap, List.length_map]
  · -- no chains is preserved
    intro c' hc' hdel hsec
    rw [hmap] at hc'
    rcases List.mem_map.1 hc' with ⟨c, hc, rfl⟩
    have hrmem' : r ∈ (ContactLinkingEngine.convertPrimaryToSecondary s q tgt).contacts := by
      rw [hmap]
      have := List.mem_map_of_mem (convF q.id tgt s.now) hrmem
      rwa [hrconv] at this
    by_cases h1 : c.id = q.id
    · rw [convF_eq_of_id tgt s.now h1]
      rw [convF_eq_of_id tgt s.now h1] at hdel hsec
      refine Or.inr ⟨r, hrmem', ?_, hrprim⟩
      rw [repoint_linkedId, hrid]
    · by_cases h2 : c.deletedAt = none ∧ c.linkPrecedence = .secondary ∧ c.linkedId = some q.id
      · rw [convF_eq_of_link tgt s.now h1 h2]
        refine Or.inr ⟨r, hrmem', ?_, hrprim⟩
        rw [repoint_linkedId, hrid]
      · rw [convF_eq_self tgt s.now h1 h2]
        rw [convF_eq_self tgt s.now h1 h2] at hdel hsec
        rcases hNC c hc hdel hsec with hnone | ⟨p, hpmem, hplid, hpprim⟩
        · exact Or.inl hnone
        · have hpq : p.id ≠ q.id := by
            intro hpq
            exact h2 ⟨hdel, hsec, by rw [hplid, hpq]⟩
          have hpconv : convF q.id tgt s.now p = p := by
            refine convF_eq_self _ _ hpq ?_
            intro hcond
            rw [hpprim] at hcond
            exact absurd hcond.2.1 (by simp)
          refine Or.inr ⟨p, ?_, hplid, hpprim⟩
          rw [hmap]
          have := List.mem_map_of_mem (convF q.id tgt s.now) hpmem
          rwa [hpconv] at this
  · refine ⟨r, ?_, hrid, hrprim, hrdel⟩
    rw [hmap]
    have := List.mem_map_of_mem (convF q.id tgt s.now) hrmem
    rwa [hrconv] at this
  · intro c hc h1 h2
    rw [hmap]
    have := List.mem_map_of_mem (convF q.id tgt s.now) hc
    rwa [convF_eq_self tgt s.now h1 h2] at this
  · intro c hc h1
    rw [hmap]
    have := List.mem_map_of_mem (convF q.id tgt s.now) hc
    rwa [convF_eq_of_id tgt s.now h1] at this
  · intro c hc hdel hsec hlid
    rw [hmap]
    have := List.mem_map_of_mem (convF q.id tgt s.now) hc
    by_cases h1 : c.id = q.id
    · rwa [convF_eq_of_id tgt s.now h1] at this
    · rwa [convF_eq_of_link tgt s.now h1 ⟨hdel, hsec, hlid⟩] at this
/-- The loop of `linkExistingPrimaries` that demotes every newer primary:
well-formedness, the clock, the id sequence, the row count, the no-chains
invariant and the surviving primary are preserved; every processed primary
ends demoted to a secondary of `tgt`; rows already pointing at `tgt` stay;
every non-deleted secondary of a processed primary is re-pointed to `tgt`. -/
theorem convertFold_spec (tgt : Nat) :
    ∀ (newer : List Contact) (s : Store),
      WF s → NoChains s →
      (∀ q ∈ newer, q ∈ s.contacts) →
      (∀ q ∈ newer, q.linkPrecedence = .primary) →
      (∀ q ∈ newer, q.deletedAt = none) →
      (newer.map (fun c => c.id)).Nodup →
      (∀ q ∈ newer, q.id ≠ tgt) →
      (∃ r ∈ s.contacts, r.id = tgt ∧ r.linkPrecedence = .primary ∧ r.deletedAt = none) →
      WF (newer.foldl (fun st p => ContactLinkingEngine.convertPrimaryToSecondary st p tgt) s) ∧
      (newer.foldl (fun st p => ContactLinkingEngine.convertPrimaryToSecondary st p tgt) s).nextId
          = s.nextId ∧
      (newer.foldl (fun st p => ContactLinkingEngine.convertPrimaryToSecondary st p tgt) s).now
          = s.now ∧
      (newer.foldl (fun st p =>
            ContactLinkingEngine.convertPrimaryToSecondary st p tgt) s).contacts.length
          = s.contacts.length ∧
      NoChains
        (newer.foldl (fun st p => ContactLinkingEngine.convertPrimaryToSecondary st p tgt) s) ∧
      (∃ r ∈ (newer.foldl (fun st p =>
            ContactLinkingEngine.convertPrimaryToSecondary st p tgt) s).contacts,
        r.id = tgt ∧ r.linkPrecedence = .primary ∧ r.deletedAt = none) ∧
      (∀ q ∈ newer, ∃ c ∈ (newer.foldl (fun st p =>
            ContactLinkingEngine.convertPrimaryToSecondary st p tgt) s).contacts,
        c.id = q.id ∧ c.linkPrecedence = .secondary ∧ c.linkedId = some tgt ∧
          c.deletedAt = none) ∧
      (∀ c ∈ s.contacts, c.linkPrecedence = .secondary → c.linkedId = some tgt →
        c ∈ (newer.foldl (fun st p =>
          ContactLinkingEngine.convertPrimaryToSecondary st p tgt) s).contacts) ∧
      (∀ c ∈ s.contacts, c.deletedAt = none → c.linkPrecedence = .secondary →
        ∀ q ∈ newer, c.linkedId = some q.id →
        ∃ c' ∈ (newer.foldl (fun st p =>
            ContactLinkingEngine.convertPrimaryToSecondary st p tgt) s).contacts,
          c'.id = c.id ∧ c'.linkPrecedence = .secondary ∧ c'.linkedId = some tgt ∧
            c'.deletedAt = none) := by
  intro newer
  induction newer with
  | nil =>
    intro s hWF hNC _ _ _ _ _ hr
    refine ⟨hWF, rfl, rfl, rfl, hNC, hr, by simp, fun c hc _ _ => hc, by simp⟩
  | cons a L ih =>
    intro s hWF hNC hmem hprim hqdel hnodup htgt hr
    have haS : a ∈ s.contacts := hmem a (List.mem_cons_self a L)
    have haP : a.linkPrecedence = .primary := hprim a (List.mem_cons_self a L)
    have haD : a.deletedAt = none := hqdel a (List.mem_cons_self a L)
    have haT : a.id ≠ tgt := htgt a (List.mem_cons_self a L)
    rw [List.map_cons] at hnodup
    rcases List.nodup_cons.1 hnodup with ⟨haL, hLnodup⟩
    rcases convert_step s a tgt hWF hNC haT hr with
      ⟨hWF1, hnext1, hnow1, hlen1, hNC1, hr1, huntouched, hdemote, hrepoint⟩
    set s1 := ContactLinkingEngine.convertPrimaryToSecondary s a tgt with hs1
    have hqa : ∀ q ∈ L, q.id ≠ a.id := by
      intro q hq hqid
      exact haL (hqid ▸ List.mem_map_of_mem (fun c => c.id) hq)
    have hmem1 : ∀ q ∈ L, q ∈ s1.contacts := by
      intro q hq
      refine huntouched q (hmem q (List.mem_cons_of_mem a hq)) (hqa q hq) ?_
      intro hcond
      rw [hprim q (List.mem_cons_of_mem a hq)] at hcond
      exact absurd hcond.2.1 (by simp)
    rcases ih s1 hWF1 hNC1 hmem1
        (fun q hq => hprim q (List.mem_cons_of_mem a hq))
        (fun q hq => hqdel q (List.mem_cons_of_mem a hq))
        hLnodup
        (fun q hq => htgt q (List.mem_cons_of_mem a hq)) hr1 with
      ⟨hWF', hnext', hnow', hlen', hNC', hr', hdemote', hstable', hrepoint'⟩
    simp only [List.foldl_cons]
    rw [← hs1]
    refine ⟨hWF', by rw [hnext', hnext1], by rw [hnow', hnow1], by rw [hlen', hlen1],
      hNC', hr', ?_, ?_, ?_⟩
    · -- every processed primary is demoted
      intro q hq
      rcases List.mem_cons.1 hq with rfl | hq
      · refine ⟨repoint (some tgt) .secondary s.now q, ?_, rfl, rfl, rfl, ?_⟩
        · refine hstable' _ (hdemote q haS rfl) rfl rfl
        · rw [repoint_deletedAt, haD]
      · exact hdemote' q hq
    · -- rows already pointing at tgt survive
      intro c hc hcsec hclid
      have hca : c.id ≠ a.id := by
        intro hca
        have : c = a := pairwise_id_unique hWF.1 hc haS hca
        rw [this, haP] at hcsec
        exact absurd hcsec (by simp)
      have hc1 : c ∈ s1.contacts := by
        refine huntouched c hc hca ?_
        intro hcond
        rw [hclid] at hcond
        exact haT (Option.some.injEq _ _ ▸ hcond.2.2.symm ▸ rfl)
      exact hstable' c hc1 hcsec hclid
    · -- secondaries of processed primaries are re-pointed
      intro c hc hcdel hcsec q hq hclid
      have hca : c.id ≠ a.id := by
        intro hca
        have : c = a := pairwise_id_unique hWF.1 hc haS hca
        rw [this, haP] at hcsec
        exact absurd hcsec (by simp)
      rcases List.mem_cons.1 hq with rfl | hq
      · refine ⟨repoint (some tgt) .secondary s.now c, ?_, rfl, rfl, rfl, ?_⟩
        · exact hstable' _ (hrepoint c hc hcdel hcsec hclid) rfl rfl
        · rw [repoint_deletedAt, hcdel]
      · have hc1 : c ∈ s1.contacts := by
          refine huntouched c hc hca ?_
          intro hcond
          have : q.id = a.id := by
            have := hcond.2.2
            rw [hclid] at this
            exact (Option.some.injEq _ _ ▸ this).symm ▸ rfl
          exact hqa q hq this
        exact hrepoint' c hc1 hcdel hcsec q hq hclid
/-! ### The candidate list: ordering and membership -/

/-- Lexicographic (createdAt, id) order: what "earliest `createdAt`, ties
broken by lowest id" means. -/
def lexCA (a b : Contact) : Prop :=
  a.createdAt < b.createdAt ∨ (a.createdAt = b.createdAt ∧ a.id < b.id)

instance (a b : Contact) : Decidable (lexCA a b) := by
  unfold lexCA; infer_instance

theorem createdLe_iff {a b : Contact} : createdLe a b = true ↔ a.createdAt ≤ b.createdAt := by
  simp [createdLe]

theorem nodup_ids_of_pairwise {l : List Contact}
    (h : l.Pairwise (fun a b => a.id < b.id)) : (l.map (fun c => c.id)).Nodup := by
  have hpm : (l.map (fun c => c.id)).Pairwise (fun a b => a < b) :=
    (List.pairwise_map).2 (h.imp (fun hx => hx))
  exact hpm.imp (fun hx => Nat.ne_of_lt hx)

theorem findByEmailOrPhoneNumber_eq_nil {s : Store} {e p : Option String}
    (h : ¬ truthy e ∧ ¬ truthy p) :
    ContactRepository.findByEmailOrPhoneNumber s e p = [] := by
  simp [ContactRepository.findByEmailOrPhoneNumber, h]

theorem mem_findByEmailOrPhoneNumber {s : Store} {e p : Option String} {c : Contact}
    (h : truthy e ∨ truthy p) :
    c ∈ ContactRepository.findByEmailOrPhoneNumber s e p ↔
      c ∈ s.contacts ∧ c.deletedAt = none ∧
        ((truthy e ∧ c.email = e) ∨ (truthy p ∧ c.phoneNumber = p)) := by
  have hne : ¬ (¬ truthy e ∧ ¬ truthy p) := by tauto
  simp only [ContactRepository.findByEmailOrPhoneNumber, if_neg hne, mem_stableSort,
    List.mem_filter, Bool.and_eq_true, Bool.or_eq_true, beq_iff_eq]

theorem pairwise_lexCA_of_sorted {l : List Contact}
    (hpw : l.Pairwise (fun a b => a.id < b.id)) :
    (stableSort createdLe l).Pairwise lexCA := by
  refine stableSort_pairwise ?_ ?_ ?_
  · intro x y hxy
    rcases hxy with h | h
    · exact createdLe_iff.2 (Nat.le_of_lt h)
    · exact createdLe_iff.2 (Nat.le_of_eq h.1)
  · intro x y z hxy hyz
    exact createdLe_iff.2 (Nat.le_trans (createdLe_iff.1 hxy) (createdLe_iff.1 hyz))
  · refine hpw.imp ?_
    intro a b hab
    constructor
    · intro hle
      have hle' : a.createdAt ≤ b.createdAt := createdLe_iff.1 hle
      rcases Nat.lt_or_ge a.createdAt b.createdAt with h | h
      · exact Or.inl h
      · exact Or.inr ⟨Nat.le_antisymm hle' h, hab⟩
    · intro hle
      have hle' : ¬ a.createdAt ≤ b.createdAt := by
        intro hx
        rw [createdLe_iff.2 hx] at hle
        cases hle
      exact Or.inl (Nat.lt_of_not_le hle')

theorem findByEmailOrPhoneNumber_pairwise_lexCA {s : Store} (hpw :
    s.contacts.Pairwise (fun a b => a.id < b.id)) (e p : Option String) :
    (ContactRepository.findByEmailOrPhoneNumber s e p).Pairwise lexCA := by
  unfold ContactRepository.findByEmailOrPhoneNumber
  split
  · exact List.Pairwise.nil
  · exact pairwise_lexCA_of_sorted (hpw.filter _)

theorem nodup_ids_stableSort {le : Contact → Contact → Bool} {l : List Contact}
    (h : (l.map (fun c => c.id)).Nodup) :
    ((stableSort le l).map (fun c => c.id)).Nodup :=
  (((stableSort_perm le l).map (fun c => c.id)).nodup_iff).2 h

theorem findByEmailOrPhoneNumber_nodup_ids {s : Store}
    (hpw : s.contacts.Pairwise (fun a b => a.id < b.id)) (e p : Option String) :
    ((ContactRepository.findByEmailOrPhoneNumber s e p).map (fun c => c.id)).Nodup := by
  unfold ContactRepository.findByEmailOrPhoneNumber
  split
  · simp
  · exact nodup_ids_stableSort (nodup_ids_of_pairwise (hpw.filter _))
/-! ### Facts about `create` -/

theorem create_snd_contacts (s : Store) (e p : Option String) (li : Option Nat)
    (pr : LinkPrecedence) :
    (ContactRepository.create s e p li pr).2.contacts =
      s.contacts ++ [(ContactRepository.create s e p li pr).1] := rfl

theorem create_snd_nextId (s : Store) (e p : Option String) (li : Option Nat)
    (pr : LinkPrecedence) :
    (ContactRepository.create s e p li pr).2.nextId = s.nextId + 1 := rfl

theorem create_fst_id (s : Store) (e p : Option String) (li : Option Nat)
    (pr : LinkPrecedence) : (ContactRepository.create s e p li pr).1.id = s.nextId := rfl

theorem create_fst_email (s : Store) (e p : Option String) (li : Option Nat)
    (pr : LinkPrecedence) :
    (ContactRepository.create s e p li pr).1.email = (if truthy e then e else none) := rfl

theorem create_fst_phoneNumber (s : Store) (e p : Option String) (li : Option Nat)
    (pr : LinkPrecedence) :
    (ContactRepository.create s e p li pr).1.phoneNumber =
      (if truthy p then p else none) := rfl

theorem create_fst_linkedId (s : Store) (e p : Option String) (li : Option Nat)
    (pr : LinkPrecedence) :
    (ContactRepository.create s e p li pr).1.linkedId =
      (if idTruthy li then li else none) := rfl

theorem create_fst_linkPrecedence (s : Store) (e p : Option String) (li : Option Nat)
    (pr : LinkPrecedence) :
    (ContactRepository.create s e p li pr).1.linkPrecedence = pr := rfl

theorem create_fst_deletedAt (s : Store) (e p : Option String) (li : Option Nat)
    (pr : LinkPrecedence) : (ContactRepository.create s e p li pr).1.deletedAt = none := rfl

theorem WF_create {s : Store} (hWF : WF s) (e p : Option String) (li : Option Nat)
    (pr : LinkPrecedence) : WF (ContactRepository.create s e p li pr).2 := by
  refine ⟨?_, ?_, ?_, ?_⟩
  · rw [create_snd_contacts]
    rw [List.pairwise_append]
    refine ⟨hWF.1, List.pairwise_singleton _ _, ?_⟩
    intro a ha b hb
    rw [List.mem_singleton] at hb
    subst hb
    rw [create_fst_id]
    exact hWF.2.1 a ha
  · intro c hc
    rw [create_snd_contacts] at hc
    rw [create_snd_nextId]
    rcases List.mem_append.1 hc with hc | hc
    · exact Nat.lt_succ_of_lt (hWF.2.1 c hc)
    · rw [List.mem_singleton] at hc
      subst hc
      rw [create_fst_id]
      exact Nat.lt_succ_self _
  · intro c hc
    rw [create_snd_contacts] at hc
    rcases List.mem_append.1 hc with hc | hc
    · exact hWF.2.2.1 c hc
    · rw [List.mem_singleton] at hc
      subst hc
      rw [create_fst_id]
      exact hWF.2.2.2
  · rw [create_snd_nextId]
    exact Nat.succ_pos _

theorem NoChains_create_secondary {s : Store} (hNC : NoChains s) {tgt : Nat}
    (hr : ∃ r ∈ s.contacts, r.id = tgt ∧ r.linkPrecedence = .primary)
    (e p : Option String) :
    NoChains (ContactRepository.create s e p (some tgt) .secondary).2 := by
  intro c hc hdel hsec
  rw [create_snd_contacts] at hc
  rcases List.mem_append.1 hc with hc | hc
  · rcases hNC c hc hdel hsec with hn | ⟨q, hq, hlid, hqprim⟩
    · exact Or.inl hn
    · exact Or.inr ⟨q, by rw [create_snd_contacts]; exact List.mem_append_left _ hq,
        hlid, hqprim⟩
  · rw [List.mem_singleton] at hc
    subst hc
    rcases hr with ⟨r, hrmem, hrid, hrprim⟩
    by_cases htz : idTruthy (some tgt)
    · refine Or.inr ⟨r, by rw [create_snd_contacts]; exact List.mem_append_left _ hrmem, ?_,
        hrprim⟩
      rw [create_fst_linkedId, if_pos htz, hrid]
    · refine Or.inl ?_
      rw [create_fst_linkedId, if_neg htz]

theorem NoChains_create_primary {s : Store} (hNC : NoChains s) (e p : Option String) :
    NoChains (ContactRepository.create s e p none .primary).2 := by
  intro c hc hdel hsec
  rw [create_snd_contacts] at hc
  rcases List.mem_append.1 hc with hc | hc
  · rcases hNC c hc hdel hsec with hn | ⟨q, hq, hlid, hqprim⟩
    · exact Or.inl hn
    · exact Or.inr ⟨q, by rw [create_snd_contacts]; exact List.mem_append_left _ hq,
        hlid, hqprim⟩
  · rw [List.mem_singleton] at hc
    subst hc
    rw [create_fst_linkPrecedence] at hsec
    cases hsec
/-- Master specification of the merge path.  Under a well-formed store and
candidate list, `linkExistingPrimaries` succeeds; the surviving primary is
the (createdAt, id)-least primary candidate; every other primary candidate is
demoted to a secondary of the survivor; the losing primaries' secondaries are
re-pointed to the survivor; exactly one new secondary row carrying the
request's fields is inserted, linked to the survivor. -/
theorem linkExistingPrimaries_spec (s : Store) (existing : List Contact)
    (req : IdentifyRequest) (hWF : WF s) (hNC : NoChains s)
    (hmem : ∀ c ∈ existing, c ∈ s.contacts ∧ c.deletedAt = none)
    (hpw : existing.Pairwise lexCA)
    (hnodup : (existing.map (fun c => c.id)).Nodup)
    (hp2 : 2 ≤ (existing.filter (fun c => c.linkPrecedence == LinkPrecedence.primary)).length) :
    ∃ oldest rest s',
      stableSort createdLe
          (existing.filter (fun c => c.linkPrecedence == LinkPrecedence.primary)) =
        oldest :: rest ∧
      (∃ res, ContactLinkingEngine.linkExistingPrimaries s existing req =
          Except.ok (res, s') ∧ res.primaryContact = oldest) ∧
      (∀ q ∈ rest, q.id ≠ oldest.id) ∧
      oldest ∈ existing.filter (fun c => c.linkPrecedence == LinkPrecedence.primary) ∧
      (∀ q ∈ existing.filter (fun c => c.linkPrecedence == LinkPrecedence.primary),
        oldest.createdAt < q.createdAt ∨
          (oldest.createdAt = q.createdAt ∧ oldest.id ≤ q.id)) ∧
      WF s' ∧ NoChains s' ∧ s'.contacts.length = s.contacts.length + 1 ∧
      (∀ q ∈ existing.filter (fun c => c.linkPrecedence == LinkPrecedence.primary),
        q.id ≠ oldest.id →
        ∃ c ∈ s'.contacts, c.id = q.id ∧ c.linkPrecedence = .secondary ∧
          c.linkedId = some oldest.id ∧ c.deletedAt = none) ∧
      (∃ c ∈ s'.contacts, c.id = s.nextId ∧
        c.email = (if truthy req.email then req.email else none) ∧
        c.phoneNumber = (if truthy req.phoneNumber then req.phoneNumber else none) ∧
        c.linkedId = some oldest.id ∧ c.linkPrecedence = .secondary ∧
        c.deletedAt = none) ∧
      (∀ c ∈ s.contacts, c.deletedAt = none → c.linkPrecedence = .secondary →
        ∀ q ∈ existing.filter (fun c => c.linkPrecedence == LinkPrecedence.primary),
          q.id ≠ oldest.id → c.linkedId = some q.id →
          ∃ c' ∈ s'.contacts, c'.id = c.id ∧ c'.linkPrecedence = .secondary ∧
            c'.linkedId = some oldest.id ∧ c'.deletedAt = none) := by
  have hppw : (existing.filter (fun c => c.linkPrecedence == LinkPrecedence.primary)).Pairwise
      lexCA := hpw.filter _
  have hsortEq : stableSort createdLe
      (existing.filter (fun c => c.linkPrecedence == LinkPrecedence.primary)) =
      existing.filter (fun c => c.linkPrecedence == LinkPrecedence.primary) := by
    refine stableSort_of_sorted (hppw.imp ?_)
    intro a b hab
    rcases hab with h | h
    · exact createdLe_iff.2 (Nat.le_of_lt h)
    · exact createdLe_iff.2 (Nat.le_of_eq h.1)
  have hne : existing.filter (fun c => c.linkPrecedence == LinkPrecedence.primary) ≠ [] := by
    intro h
    rw [h] at hp2
    simp at hp2
  obtain ⟨oldest, rest, hcons⟩ := List.exists_cons_of_ne_nil hne
  have hqex : ∀ q ∈ existing.filter (fun c => c.linkPrecedence == LinkPrecedence.primary),
      q ∈ existing := fun q hq => (List.mem_filter.1 hq).1
  have hqprim : ∀ q ∈ existing.filter (fun c => c.linkPrecedence == LinkPrecedence.primary),
      q.linkPrecedence = .primary := by
    intro q hq
    have := (List.mem_filter.1 hq).2
    simpa using this
  have hpnodup : ((existing.filter
      (fun c => c.linkPrecedence == LinkPrecedence.primary)).map (fun c => c.id)).Nodup :=
    hnodup.sublist ((List.filter_sublist existing).map (fun c => c.id))
  rw [hcons] at hpnodup
  rw [List.map_cons] at hpnodup
  rcases List.nodup_cons.1 hpnodup with ⟨hoLnotin, hrestnodup⟩
  have htgtRest : ∀ q ∈ rest, q.id ≠ oldest.id := by
    intro q hq hqid
    exact hoLnotin (hqid ▸ List.mem_map_of_mem (fun c => c.id) hq)
  have holdp : oldest ∈ existing.filter (fun c => c.linkPrecedence == LinkPrecedence.primary) := by
    rw [hcons]
    exact List.mem_cons_self _ _
  have holdS : oldest ∈ s.contacts := (hmem oldest (hqex oldest holdp)).1
  have holdD : oldest.deletedAt = none := (hmem oldest (hqex oldest holdp)).2
  have holdP : oldest.linkPrecedence = .primary := hqprim oldest holdp
  have hrestp : ∀ q ∈ rest,
      q ∈ existing.filter (fun c => c.linkPrecedence == LinkPrecedence.primary) := by
    intro q hq
    rw [hcons]
    exact List.mem_cons_of_mem _ hq
  rcases convertFold_spec oldest.id rest s hWF hNC
      (fun q hq => (hmem q (hqex q (hrestp q hq))).1)
      (fun q hq => hqprim q (hrestp q hq))
      (fun q hq => (hmem q (hqex q (hrestp q hq))).2)
      hrestnodup htgtRest
      ⟨oldest, holdS, rfl, holdP, holdD⟩ with
    ⟨hWF1, hnext1, hnow1, hlen1, hNC1, hr1, hdemote1, hstable1, hrepoint1⟩
  have hkey : stableSort createdLe
      (existing.filter (fun c => c.linkPrecedence == LinkPrecedence.primary)) =
      oldest :: rest := hsortEq.trans hcons
  have heq : ContactLinkingEngine.linkExistingPrimaries s existing req =
      Except.ok
        ({ primaryContact := oldest,
           allLinkedContacts := ContactRepository.findLinkedContacts
             (ContactRepository.create
               (rest.foldl
                 (fun st p => ContactLinkingEngine.convertPrimaryToSecondary st p oldest.id) s)
               req.email req.phoneNumber (some oldest.id) .secondary).2 oldest.id },
         (ContactRepository.create
           (rest.foldl
             (fun st p => ContactLinkingEngine.convertPrimaryToSecondary st p oldest.id) s)
           req.email req.phoneNumber (some oldest.id) .secondary).2) := by
    unfold ContactLinkingEngine.linkExistingPrimaries
    rw [if_neg (Nat.not_lt.2 hp2), hkey]
  refine ⟨oldest, rest,
    (ContactRepository.create
      (rest.foldl (fun st p => ContactLinkingEngine.convertPrimaryToSecondary st p oldest.id) s)
      req.email req.phoneNumber (some oldest.id) .secondary).2, hkey,
    ⟨_, heq, rfl⟩, htgtRest, holdp, ?_, ?_, ?_, ?_, ?_, ?_, ?_⟩
  · -- minimality of the survivor
    intro q hq
    rw [hcons] at hq
    rcases List.mem_cons.1 hq with rfl | hq
    · exact Or.inr ⟨rfl, Nat.le_refl _⟩
    · rw [hcons] at hppw
      rcases (List.pairwise_cons.1 hppw).1 q hq with h | h
      · exact Or.inl h
      · exact Or.inr ⟨h.1, Nat.le_of_lt h.2⟩
  · -- well-formedness of the final store
    exact WF_create hWF1 _ _ _ _
  · -- no chains in the final store
    rcases hr1 with ⟨r, hrm, hri, hrp, _⟩
    exact NoChains_create_secondary hNC1 ⟨r, hrm, hri, hrp⟩ _ _
  · -- exactly one row was inserted
    rw [create_snd_contacts, List.length_append, List.length_singleton, hlen1]
  · -- every losing primary is demoted
    intro q hq hqid
    have hqrest : q ∈ rest := by
      rw [hcons] at hq
      rcases List.mem_cons.1 hq with rfl | hq
      · exact absurd rfl hqid
      · exact hq
    rcases hdemote1 q hqrest with ⟨c, hcm, hcprops⟩
    refine ⟨c, ?_, hcprops⟩
    rw [create_snd_contacts]
    exact List.mem_append_left _ hcm
  · -- the new secondary row
    refine ⟨(ContactRepository.create
        (rest.foldl (fun st p => ContactLinkingEngine.convertPrimaryToSecondary st p oldest.id) s)
        req.email req.phoneNumber (some oldest.id) .secondary).1, ?_, ?_, ?_, ?_, ?_, ?_, ?_⟩
    · rw [create_snd_contacts]
      exact List.mem_append_right _ (List.mem_singleton_self _)
    · rw [create_fst_id, hnext1]
    · rw [create_fst_email]
    · rw [create_fst_phoneNumber]
    · rw [create_fst_linkedId]
      have h0 : 0 < oldest.id := hWF.2.2.1 oldest holdS
      have : idTruthy (some oldest.id) = true := by
        simp [idTruthy]
        omega
      rw [if_pos this]
    · rw [create_fst_linkPrecedence]
    · rw [create_fst_deletedAt]
  · -- secondaries of losing primaries are re-pointed to the survivor
    intro c hc hcdel hcsec q hq hqid hclid
    have hqrest : q ∈ rest := by
      rw [hcons] at hq
      rcases List.mem_cons.1 hq with rfl | hq
      · exact absurd rfl hqid
      · exact hq
    rcases hrepoint1 c hc hcdel hcsec q hqrest hclid with ⟨c', hcm', hcprops'⟩
    refine ⟨c', ?_, hcprops'⟩
    rw [create_snd_contacts]
    exact List.mem_append_left _ hcm'
/-! ### Resolving a primary through the repository -/

/-- Under the no-chains invariant, `findPrimaryContact` only ever returns a
primary row of the store. -/
theorem findPrimaryContact_primary {s : Store} (hWF : WF s) (hNC : NoChains s)
    {i : Nat} {pc : Contact} (h : ContactRepository.findPrimaryContact s i = some pc) :
    pc ∈ s.contacts ∧ pc.linkPrecedence = .primary := by
  unfold ContactRepository.findPrimaryContact at h
  cases hfu : ContactRepository.findUnique s i with
  | none => rw [hfu] at h; cases h
  | some c =>
    rw [hfu] at h
    dsimp only at h
    have hcmem : c ∈ s.contacts := List.mem_of_find?_eq_some hfu
    by_cases hdel : c.deletedAt ≠ none
    · rw [if_pos hdel] at h; cases h
    · rw [if_neg hdel] at h
      rw [not_not] at hdel
      by_cases hprim : c.linkPrecedence = .primary
      · rw [if_pos hprim] at h
        cases h
        exact ⟨hcmem, hprim⟩
      · rw [if_neg hprim] at h
        have hsec : c.linkPrecedence = .secondary := by
          cases hcp : c.linkPrecedence
          · exact absurd hcp hprim
          · rfl
        by_cases htr : idTruthy c.linkedId = true
        · rw [if_pos htr] at h
          cases hlid : c.linkedId with
          | none => rw [hlid] at h; cases h
          | some l =>
            rw [hlid] at h
            rcases hNC c hcmem hdel hsec with hn | ⟨p, hpmem, hplid, hpprim⟩
            · rw [hn] at hlid; cases hlid
            · rw [hlid] at hplid
              have hl : l = p.id := by
                injection hplid
              subst hl
              dsimp only at h
              rw [findUnique_of_mem hWF hpmem] at h
              dsimp only at h
              by_cases hpdel : p.deletedAt = none
              · rw [if_pos hpdel] at h
                cases h
                exact ⟨hpmem, hpprim⟩
              · rw [if_neg hpdel] at h; cases h
        · rw [if_neg htr] at h; cases h

theorem findPrimaryFromContactsLoop_primary {s : Store} (hWF : WF s) (hNC : NoChains s) :
    ∀ {l : List Contact} {pc : Contact},
      ContactLinkingEngine.findPrimaryFromContactsLoop s l = some pc →
      pc ∈ s.contacts ∧ pc.linkPrecedence = .primary := by
  intro l
  induction l with
  | nil => intro pc h; cases h
  | cons c rest ih =>
    intro pc h
    unfold ContactLinkingEngine.findPrimaryFromContactsLoop at h
    by_cases hc : c.linkPrecedence = .secondary ∧ idTruthy c.linkedId = true
    · rw [if_pos hc] at h
      cases hfp : ContactRepository.findPrimaryContact s c.id with
      | some p =>
        rw [hfp] at h
        dsimp only at h
        injection h with hpc
        subst hpc
        exact findPrimaryContact_primary hWF hNC hfp
      | none =>
        rw [hfp] at h
        dsimp only at h
        exact ih h
    · rw [if_neg hc] at h
      exact ih h

/-- Under the no-chains invariant, `findPrimaryFromContacts` only ever
returns a primary row of the store, provided the candidate rows are store
rows. -/
theorem findPrimaryFromContacts_primary {s : Store} (hWF : WF s) (hNC : NoChains s)
    {l : List Contact} {pc : Contact}
    (hmem : ∀ c ∈ l, c ∈ s.contacts)
    (h : ContactLinkingEngine.findPrimaryFromContacts s l = .ok pc) :
    pc ∈ s.contacts ∧ pc.linkPrecedence = .primary := by
  unfold ContactLinkingEngine.findPrimaryFromContacts at h
  cases hfind : l.find? (fun c => c.linkPrecedence == LinkPrecedence.primary) with
  | some p =>
    rw [hfind] at h
    dsimp only at h
    injection h with hpc
    subst hpc
    refine ⟨hmem p (List.mem_of_find?_eq_some hfind), ?_⟩
    have := List.find?_some hfind
    simpa using this
  | none =>
    rw [hfind] at h
    dsimp only at h
    cases hloop : ContactLinkingEngine.findPrimaryFromContactsLoop s l with
    | some p =>
      rw [hloop] at h
      dsimp only at h
      injection h with hpc
      subst hpc
      exact findPrimaryFromContactsLoop_primary hWF hNC hloop
    | none =>
      rw [hloop] at h
      dsimp only at h
      cases h
/-- Every successful strategy execution preserves well-formedness and the
no-chains invariant. -/
theorem executeStrategy_preserves (s : Store) (strat : ContactLinkingStrategy)
    (existing : List Contact) (req : IdentifyRequest) (hWF : WF s) (hNC : NoChains s)
    (hmem : ∀ c ∈ existing, c ∈ s.contacts ∧ c.deletedAt = none)
    (hpw : existing.Pairwise lexCA)
    (hnodup : (existing.map (fun c => c.id)).Nodup) :
    ∀ res s', ContactLinkingEngine.executeStrategy s strat existing req = .ok (res, s') →
      NoChains s' ∧ WF s' := by
  intro res s' h
  cases strat with
  | CREATE_NEW_PRIMARY =>
    unfold ContactLinkingEngine.executeStrategy at h
    dsimp only at h
    injection h with h'
    have hs' : s' = (ContactRepository.create s req.email req.phoneNumber none .primary).2 := by
      have := congrArg Prod.snd h'
      exact this.symm
    subst hs'
    exact ⟨NoChains_create_primary hNC _ _, WF_create hWF _ _ _ _⟩
  | RETURN_EXISTING =>
    unfold ContactLinkingEngine.executeStrategy ContactLinkingEngine.returnExisting at h
    cases hex : ContactLinkingEngine.findExactMatch existing req with
    | none => rw [hex] at h; cases h
    | some m =>
      rw [hex] at h
      dsimp only at h
      cases hfp : ContactLinkingEngine.findPrimaryFromContacts s existing with
      | error e => rw [hfp] at h; cases h
      | ok pc =>
        rw [hfp] at h
        dsimp only at h
        injection h with h'
        have hs' : s' = s := by
          have := congrArg Prod.snd h'
          exact this.symm
        subst hs'
        exact ⟨hNC, hWF⟩
  | CREATE_SECONDARY =>
    unfold ContactLinkingEngine.executeStrategy ContactLinkingEngine.createSecondary at h
    cases hfp : ContactLinkingEngine.findPrimaryFromContacts s existing with
    | error e => rw [hfp] at h; cases h
    | ok pc =>
      rw [hfp] at h
      dsimp only at h
      injection h with h'
      have hs' : s' =
          (ContactRepository.create s req.email req.phoneNumber (some pc.id) .secondary).2 := by
        have := congrArg Prod.snd h'
        exact this.symm
      subst hs'
      rcases findPrimaryFromContacts_primary hWF hNC (fun c hc => (hmem c hc).1) hfp with
        ⟨hpcmem, hpcprim⟩
      exact ⟨NoChains_create_secondary hNC ⟨pc, hpcmem, rfl, hpcprim⟩ _ _,
        WF_create hWF _ _ _ _⟩
  | LINK_EXISTING_PRIMARIES =>
    unfold ContactLinkingEngine.executeStrategy at h
    dsimp only at h
    by_cases hp2 : 2 ≤ (existing.filter
        (fun c => c.linkPrecedence == LinkPrecedence.primary)).length
    · rcases linkExistingPrimaries_spec s existing req hWF hNC hmem hpw hnodup hp2 with
        ⟨oldest, rest, s0, _, ⟨res0, heq0, _⟩, _, _, _, hWF0, hNC0, _⟩
      rw [heq0] at h
      injection h with h'
      have hs' : s' = s0 := by
        have := congrArg Prod.snd h'
        exact this.symm
      subst hs'
      exact ⟨hNC0, hWF0⟩
    · unfold ContactLinkingEngine.linkExistingPrimaries at h
      rw [if_pos (Nat.lt_of_not_le hp2)] at h
      cases h
/-! ### Claim theorems C2 and C3 -/

/-- C2: For every MergeIdentities execution over candidates containing two
or more Primary records, the surviving primary is the Primary with the
earliest `createdAt`, ties broken by lowest id; every other Primary in the
candidates is updated to precedence Secondary with `linkedId` equal to the
surviving primary's id, and one new Secondary record carrying the
observation's fields is inserted linked to the surviving primary. -/
theorem merge_surviving_primary_spec (s : Store) (req : IdentifyRequest)
    (hWF : WF s) (hNC : NoChains s)
    (hp2 : 2 ≤ ((ContactRepository.findByEmailOrPhoneNumber s req.email
        req.phoneNumber).filter (fun c => c.linkPrecedence == LinkPrecedence.primary)).length) :
    ∃ oldest rest s',
      stableSort createdLe
          ((ContactRepository.findByEmailOrPhoneNumber s req.email req.phoneNumber).filter
            (fun c => c.linkPrecedence == LinkPrecedence.primary)) = oldest :: rest ∧
      (∃ res, ContactLinkingEngine.linkExistingPrimaries s
          (ContactRepository.findByEmailOrPhoneNumber s req.email req.phoneNumber) req =
        Except.ok (res, s') ∧ res.primaryContact = oldest) ∧
      (∀ q ∈ rest, q.id ≠ oldest.id) ∧
      oldest ∈ (ContactRepository.findByEmailOrPhoneNumber s req.email req.phoneNumber).filter
          (fun c => c.linkPrecedence == LinkPrecedence.primary) ∧
      (∀ q ∈ (ContactRepository.findByEmailOrPhoneNumber s req.email req.phoneNumber).filter
          (fun c => c.linkPrecedence == LinkPrecedence.primary),
        oldest.createdAt < q.createdAt ∨
          (oldest.createdAt = q.createdAt ∧ oldest.id ≤ q.id)) ∧
      WF s' ∧ NoChains s' ∧ s'.contacts.length = s.contacts.length + 1 ∧
      (∀ q ∈ (ContactRepository.findByEmailOrPhoneNumber s req.email req.phoneNumber).filter
          (fun c => c.linkPrecedence == LinkPrecedence.primary), q.id ≠ oldest.id →
        ∃ c ∈ s'.contacts, c.id = q.id ∧ c.linkPrecedence = .secondary ∧
          c.linkedId = some oldest.id ∧ c.deletedAt = none) ∧
      (∃ c ∈ s'.contacts, c.id = s.nextId ∧
        c.email = (if truthy req.email then req.email else none) ∧
        c.phoneNumber = (if truthy req.phoneNumber then req.phoneNumber else none) ∧
        c.linkedId = some oldest.id ∧ c.linkPrecedence = .secondary ∧
        c.deletedAt = none) ∧
      (∀ c ∈ s.contacts, c.deletedAt = none → c.linkPrecedence = .secondary →
        ∀ q ∈ (ContactRepository.findByEmailOrPhoneNumber s req.email
            req.phoneNumber).filter (fun c => c.linkPrecedence == LinkPrecedence.primary),
          q.id ≠ oldest.id → c.linkedId = some q.id →
          ∃ c' ∈ s'.contacts, c'.id = c.id ∧ c'.linkPrecedence = .secondary ∧
            c'.linkedId = some oldest.id ∧ c'.deletedAt = none) := by
  have htp : truthy req.email ∨ truthy req.phoneNumber = true := by
    by_cases h1 : truthy req.email
    · exact Or.inl h1
    · by_cases h2 : truthy req.phoneNumber
      · exact Or.inr h2
      · rw [findByEmailOrPhoneNumber_eq_nil ⟨h1, h2⟩] at hp2
        simp at hp2
  exact linkExistingPrimaries_spec s _ req hWF hNC
    (fun c hc => ⟨((mem_findByEmailOrPhoneNumber htp).1 hc).1,
      ((mem_findByEmailOrPhoneNumber htp).1 hc).2.1⟩)
    (findByEmailOrPhoneNumber_pairwise_lexCA hWF.1 _ _)
    (findByEmailOrPhoneNumber_nodup_ids hWF.1 _ _) hp2

def mergeWitnessStore : Store :=
  { contacts :=
      [{ id := 1, phoneNumber := none, email := some "a", linkedId := none,
         linkPrecedence := .primary, createdAt := 5, updatedAt := 5, deletedAt := none },
       { id := 2, phoneNumber := some "1", email := none, linkedId := none,
         linkPrecedence := .primary, createdAt := 5, updatedAt := 6, deletedAt := none }],
    nextId := 3, now := 10 }

def mergeWitnessReq : IdentifyRequest := { email := some "a", phoneNumber := some "1" }

theorem merge_surviving_primary_spec_witness :
    (WF mergeWitnessStore ∧ NoChains mergeWitnessStore ∧
      2 ≤ ((ContactRepository.findByEmailOrPhoneNumber mergeWitnessStore
          mergeWitnessReq.email mergeWitnessReq.phoneNumber).filter
          (fun c => c.linkPrecedence == LinkPrecedence.primary)).length) ∧
    ∃ oldest rest s',
      stableSort createdLe
          ((ContactRepository.findByEmailOrPhoneNumber mergeWitnessStore
            mergeWitnessReq.email mergeWitnessReq.phoneNumber).filter
            (fun c => c.linkPrecedence == LinkPrecedence.primary)) = oldest :: rest ∧
      (∃ res, ContactLinkingEngine.linkExistingPrimaries mergeWitnessStore
          (ContactRepository.findByEmailOrPhoneNumber mergeWitnessStore
            mergeWitnessReq.email mergeWitnessReq.phoneNumber) mergeWitnessReq =
        Except.ok (res, s') ∧ res.primaryContact = oldest) ∧
      (∀ q ∈ rest, q.id ≠ oldest.id) ∧
      oldest ∈ (ContactRepository.findByEmailOrPhoneNumber mergeWitnessStore
          mergeWitnessReq.email mergeWitnessReq.phoneNumber).filter
          (fun c => c.linkPrecedence == LinkPrecedence.primary) ∧
      (∀ q ∈ (ContactRepository.findByEmailOrPhoneNumber mergeWitnessStore
          mergeWitnessReq.email mergeWitnessReq.phoneNumber).filter
          (fun c => c.linkPrecedence == LinkPrecedence.primary),
        oldest.createdAt < q.createdAt ∨
          (oldest.createdAt = q.createdAt ∧ oldest.id ≤ q.id)) ∧
      WF s' ∧ NoChains s' ∧
      s'.contacts.length = mergeWitnessStore.contacts.length + 1 ∧
      (∀ q ∈ (ContactRepository.findByEmailOrPhoneNumber mergeWitnessStore
          mergeWitnessReq.email mergeWitnessReq.phoneNumber).filter
          (fun c => c.linkPrecedence == LinkPrecedence.primary), q.id ≠ oldest.id →
        ∃ c ∈ s'.contacts, c.id = q.id ∧ c.linkPrecedence = .secondary ∧
          c.linkedId = some oldest.id ∧ c.deletedAt = none) ∧
      (∃ c ∈ s'.contacts, c.id = mergeWitnessStore.nextId ∧
        c.email = (if truthy mergeWitnessReq.email then mergeWitnessReq.email else none) ∧
        c.phoneNumber =
          (if truthy mergeWitnessReq.phoneNumber then mergeWitnessReq.phoneNumber
           else none) ∧
        c.linkedId = some oldest.id ∧ c.linkPrecedence = .secondary ∧
        c.deletedAt = none) ∧
      (∀ c ∈ mergeWitnessStore.contacts, c.deletedAt = none →
        c.linkPrecedence = .secondary →
        ∀ q ∈ (ContactRepository.findByEmailOrPhoneNumber mergeWitnessStore
            mergeWitnessReq.email mergeWitnessReq.phoneNumber).filter
            (fun c => c.linkPrecedence == LinkPrecedence.primary),
          q.id ≠ oldest.id → c.linkedId = some q.id →
          ∃ c' ∈ s'.contacts, c'.id = c.id ∧ c'.linkPrecedence = .secondary ∧
            c'.linkedId = some oldest.id ∧ c'.deletedAt = none) :=
  ⟨⟨by decide, by decide, by decide⟩,
    merge_surviving_primary_spec mergeWitnessStore mergeWitnessReq
      (by decide) (by decide) (by decide)⟩

/-- C3: After every successful `identifyContact` operation, no Secondary's
`linkedId` points to another Secondary: every non-deleted Secondary's
`linkedId` is the id of a Primary row.  In particular, when losing primaries
are demoted during a merge, each of their pre-existing Secondaries has its
`linkedId` re-pointed to the surviving primary's id while keeping precedence
Secondary. -/
theorem no_chains_invariant_preserved (s : Store) (req : IdentifyRequest)
    (hWF : WF s) (hNC : NoChains s) :
    (∀ r s', ContactService.identifyContact s req = (Except.ok r, s') → NoChains s') ∧
    (2 ≤ ((ContactRepository.findByEmailOrPhoneNumber s req.email req.phoneNumber).filter
        (fun c => c.linkPrecedence == LinkPrecedence.primary)).length →
      ∃ oldest rest s',
        stableSort createdLe
            ((ContactRepository.findByEmailOrPhoneNumber s req.email req.phoneNumber).filter
              (fun c => c.linkPrecedence == LinkPrecedence.primary)) = oldest :: rest ∧
        (∃ res, ContactLinkingEngine.linkExistingPrimaries s
            (ContactRepository.findByEmailOrPhoneNumber s req.email req.phoneNumber) req =
          Except.ok (res, s')) ∧
        NoChains s' ∧
        (∀ c ∈ s.contacts, c.deletedAt = none → c.linkPrecedence = .secondary →
          ∀ q ∈ rest, c.linkedId = some q.id →
          ∃ c' ∈ s'.contacts, c'.id = c.id ∧ c'.linkPrecedence = .secondary ∧
            c'.linkedId = some oldest.id ∧ c'.deletedAt = none)) := by
  constructor
  · intro r s' h
    unfold ContactService.identifyContact at h
    by_cases hval : ¬ truthy req.email ∧ ¬ truthy req.phoneNumber
    · rw [if_pos hval] at h
      simp at h
    · rw [if_neg hval] at h
      dsimp only at h
      have htp : truthy req.email ∨ truthy req.phoneNumber = true := by
        by_cases h1 : truthy req.email
        · exact Or.inl h1
        · by_cases h2 : truthy req.phoneNumber
          · exact Or.inr h2
          · exact absurd ⟨h1, h2⟩ hval
      cases hexec : ContactLinkingEngine.executeStrategy s
          (ContactLinkingEngine.determineContactStrategy
            (ContactRepository.findByEmailOrPhoneNumber s req.email req.phoneNumber) req)
          (ContactRepository.findByEmailOrPhoneNumber s req.email req.phoneNumber) req with
      | error e =>
        rw [hexec] at h
        simp at h
      | ok p =>
        rw [hexec] at h
        dsimp only at h
        rw [Prod.mk.injEq] at h
        have hs' : s' = p.2 := h.2.symm
        subst hs'
        exact (executeStrategy_preserves s _ _ req hWF hNC
          (fun c hc => ⟨((mem_findByEmailOrPhoneNumber htp).1 hc).1,
            ((mem_findByEmailOrPhoneNumber htp).1 hc).2.1⟩)
          (findByEmailOrPhoneNumber_pairwise_lexCA hWF.1 _ _)
          (findByEmailOrPhoneNumber_nodup_ids hWF.1 _ _) p.1 p.2 hexec).1
  · intro hp2
    have htp : truthy req.email ∨ truthy req.phoneNumber = true := by
      by_cases h1 : truthy req.email
      · exact Or.inl h1
      · by_cases h2 : truthy req.phoneNumber
        · exact Or.inr h2
        · rw [findByEmailOrPhoneNumber_eq_nil ⟨h1, h2⟩] at hp2
          simp at hp2
    rcases linkExistingPrimaries_spec s
        (ContactRepository.findByEmailOrPhoneNumber s req.email req.phoneNumber) req hWF hNC
        (fun c hc => ⟨((mem_findByEmailOrPhoneNumber htp).1 hc).1,
          ((mem_findByEmailOrPhoneNumber htp).1 hc).2.1⟩)
        (findByEmailOrPhoneNumber_pairwise_lexCA hWF.1 _ _)
        (findByEmailOrPhoneNumber_nodup_ids hWF.1 _ _) hp2 with
      ⟨oldest, rest, s0, hkey, ⟨res0, heq0, _⟩, hrestne, _, _, _, hNC0, _, _, _, hrepoint⟩
    refine ⟨oldest, rest, s0, hkey, ⟨res0, heq0⟩, hNC0, ?_⟩
    intro c hc hcdel hcsec q hq hclid
    have hqfil : q ∈ (ContactRepository.findByEmailOrPhoneNumber s req.email
        req.phoneNumber).filter (fun c => c.linkPrecedence == LinkPrecedence.primary) := by
      have hq' : q ∈ stableSort createdLe
          ((ContactRepository.findByEmailOrPhoneNumber s req.email req.phoneNumber).filter
            (fun c => c.linkPrecedence == LinkPrecedence.primary)) := by
        rw [hkey]
        exact List.mem_cons_of_mem _ hq
      exact mem_stableSort.1 hq'
    exact hrepoint c hc hcdel hcsec q hqfil (hrestne q hq) hclid

def chainsWitnessStore : Store :=
  { contacts :=
      [{ id := 1, phoneNumber := none, email := some "a", linkedId := none,
         linkPrecedence := .primary, createdAt := 1, updatedAt := 1, deletedAt := none },
       { id := 2, phoneNumber := some "1", email := none, linkedId := none,
         linkPrecedence := .primary, createdAt := 2, updatedAt := 2, deletedAt := none },
       { id := 3, phoneNumber := some "2", email := none, linkedId := some 2,
         linkPrecedence := .secondary, createdAt := 3, updatedAt := 3, deletedAt := none }],
    nextId := 4, now := 9 }

theorem no_chains_invariant_preserved_witness :
    (WF chainsWitnessStore ∧ NoChains chainsWitnessStore) ∧
    ((∀ r s', ContactService.identifyContact chainsWitnessStore mergeWitnessReq =
        (Except.ok r, s') → NoChains s') ∧
      (2 ≤ ((ContactRepository.findByEmailOrPhoneNumber chainsWitnessStore
          mergeWitnessReq.email mergeWitnessReq.phoneNumber).filter
          (fun c => c.linkPrecedence == LinkPrecedence.primary)).length →
        ∃ oldest rest s',
          stableSort createdLe
              ((ContactRepository.findByEmailOrPhoneNumber chainsWitnessStore
                mergeWitnessReq.email mergeWitnessReq.phoneNumber).filter
                (fun c => c.linkPrecedence == LinkPrecedence.primary)) = oldest :: rest ∧
          (∃ res, ContactLinkingEngine.linkExistingPrimaries chainsWitnessStore
              (ContactRepository.findByEmailOrPhoneNumber chainsWitnessStore
                mergeWitnessReq.email mergeWitnessReq.phoneNumber) mergeWitnessReq =
            Except.ok (res, s')) ∧
          NoChains s' ∧
          (∀ c ∈ chainsWitnessStore.contacts, c.deletedAt = none →
            c.linkPrecedence = .secondary →
            ∀ q ∈ rest, c.linkedId = some q.id →
            ∃ c' ∈ s'.contacts, c'.id = c.id ∧ c'.linkPrecedence = .secondary ∧
              c'.linkedId = some oldest.id ∧ c'.deletedAt = none))) :=
  ⟨⟨by decide, by decide⟩,
    no_chains_invariant_preserved chainsWitnessStore mergeWitnessReq (by decide) (by decide)⟩
/-! ### The classifier against the spec's words (C1, C6, C7) -/

/-- Modelled from the spec (§4.1 decision order), reading "same email (or
both absent)" literally as equality of the optional values: an empty string
is a present value distinct from an absent one. -/
def specClassify (candidates : List Contact) (obs : IdentifyRequest) : ContactLinkingStrategy :=
  if candidates.isEmpty then .CREATE_NEW_PRIMARY
  else if candidates.any (fun c =>
      c.email == obs.email && c.phoneNumber == obs.phoneNumber) then .RETURN_EXISTING
  else if 1 < candidates.countP (fun c => c.linkPrecedence == LinkPrecedence.primary) then
    .LINK_EXISTING_PRIMARIES
  else .CREATE_SECONDARY

/-- JavaScript-falsiness normalization: an empty string collapses to
absent. -/
def normOpt (o : Option String) : Option String := if truthy o then o else none

/-- The spec's decision order with "same or both absent" read modulo
JavaScript falsiness: empty strings count as absent. -/
def specClassifyAmended (candidates : List Contact) (obs : IdentifyRequest) :
    ContactLinkingStrategy :=
  if candidates.isEmpty then .CREATE_NEW_PRIMARY
  else if candidates.any (fun c =>
      normOpt c.email == normOpt obs.email &&
        normOpt c.phoneNumber == normOpt obs.phoneNumber) then .RETURN_EXISTING
  else if 1 < candidates.countP (fun c => c.linkPrecedence == LinkPrecedence.primary) then
    .LINK_EXISTING_PRIMARIES
  else .CREATE_SECONDARY

theorem find?_isSome_eq_any {p q : Contact → Bool} (hpq : ∀ c, p c = q c) :
    ∀ l : List Contact, (l.find? p).isSome = l.any q := by
  intro l
  induction l with
  | nil => rfl
  | cons c l ih =>
    rw [List.find?_cons, List.any_cons, ← hpq c]
    cases hc : p c
    · simp only [Bool.false_or]
      exact ih
    · simp

theorem exactField_eq (a b : Option String) :
    (if truthy b then a == b else (decide ¬ truthy a = true)) = (normOpt a == normOpt b) := by
  cases b with
  | none =>
    cases a with
    | none => rfl
    | some sa =>
      by_cases hsa : sa = ""
      · subst hsa; rfl
      · simp [truthy, normOpt, hsa]
  | some sb =>
    by_cases hsb : sb = ""
    · subst hsb
      cases a with
      | none => rfl
      | some sa =>
        by_cases hsa : sa = ""
        · subst hsa; rfl
        · simp [truthy, normOpt, hsa]
    · cases a with
      | none => simp [truthy, normOpt, hsb]
      | some sa =>
        by_cases hsa : sa = ""
        · subst hsa
          simp [truthy, normOpt, hsb, Ne.symm hsb]
        · simp [truthy, normOpt, hsa, hsb]

theorem findExactMatch_isSome_eq (existing : List Contact) (req : IdentifyRequest) :
    (ContactLinkingEngine.findExactMatch existing req).isSome =
      existing.any (fun c =>
        normOpt c.email == normOpt req.email &&
          normOpt c.phoneNumber == normOpt req.phoneNumber) := by
  unfold ContactLinkingEngine.findExactMatch
  refine find?_isSome_eq_any ?_ existing
  intro c
  rw [← exactField_eq c.email req.email, ← exactField_eq c.phoneNumber req.phoneNumber]

/-- C1 amended: the classifier follows the spec's fixed decision order, with
the exact-match test read modulo JavaScript falsiness: a present-but-empty
email or phone (on the observation or on a candidate) counts as absent. -/
theorem determineContactStrategy_eq_amended (existing : List Contact) (req : IdentifyRequest) :
    ContactLinkingEngine.determineContactStrategy existing req =
      specClassifyAmended existing req := by
  unfold ContactLinkingEngine.determineContactStrategy specClassifyAmended
  rw [findExactMatch_isSome_eq existing req, List.countP_eq_length_filter]
  cases existing with
  | nil => rfl
  | cons c l => simp

def emptyEmailCandidate : Contact :=
  { id := 1, phoneNumber := some "1", email := some "", linkedId := none,
    linkPrecedence := .primary, createdAt := 0, updatedAt := 0, deletedAt := none }

def phoneOnlyReq : IdentifyRequest := { email := none, phoneNumber := some "1" }

/-- C1 counterexample: on a candidate whose email is the empty string and an
observation with only the phone set, the code classifies RETURN_EXISTING
(NoOp) while the spec's literal decision order (empty string is a present
email, not an absent one, so there is no exact match) yields
CREATE_SECONDARY (ExtendIdentity). -/
theorem determineContactStrategy_spec_counterexample :
    ContactLinkingEngine.determineContactStrategy [emptyEmailCandidate] phoneOnlyReq =
        ContactLinkingStrategy.RETURN_EXISTING ∧
      specClassify [emptyEmailCandidate] phoneOnlyReq =
        ContactLinkingStrategy.CREATE_SECONDARY ∧
      ContactLinkingEngine.determineContactStrategy [emptyEmailCandidate] phoneOnlyReq ≠
        specClassify [emptyEmailCandidate] phoneOnlyReq := by
  refine ⟨by decide, by decide, by decide⟩

def nullEmailCandidate : Contact :=
  { id := 1, phoneNumber := some "1", email := none, linkedId := none,
    linkPrecedence := .primary, createdAt := 0, updatedAt := 0, deletedAt := none }

def emptyEmailReq : IdentifyRequest := { email := some "", phoneNumber := some "1" }

/-- C6 counterexample: an observation whose email is present (the empty
string) exact-matches a candidate whose email is null and not identical to
the observation's email, so "an observation with email present matches only
a candidate with the identical email" fails. -/
theorem findExactMatch_strict_counterexample :
    ContactLinkingEngine.findExactMatch [nullEmailCandidate] emptyEmailReq =
        some nullEmailCandidate ∧
      emptyEmailReq.email ≠ none ∧
      nullEmailCandidate.email ≠ emptyEmailReq.email := by
  refine ⟨by decide, by decide, by decide⟩

/-- C6 amended: exact-match null handling is strict up to JavaScript
falsiness.  A match's email equals the observation's email whenever the
observation's email is truthy (present and non-empty) — case-sensitively,
with no normalization — and is itself falsy (null or empty) whenever the
observation's email is falsy; symmetrically for phone.  Conversely any
candidate satisfying these conditions produces a match. -/
theorem findExactMatch_strict_amended (existing : List Contact) (req : IdentifyRequest) :
    (∀ c, ContactLinkingEngine.findExactMatch existing req = some c →
      c ∈ existing ∧
      (truthy req.email → c.email = req.email) ∧
      (¬ truthy req.email → ¬ truthy c.email) ∧
      (truthy req.phoneNumber → c.phoneNumber = req.phoneNumber) ∧
      (¬ truthy req.phoneNumber → ¬ truthy c.phoneNumber)) ∧
    (∀ c ∈ existing,
      (truthy req.email → c.email = req.email) →
      (¬ truthy req.email → ¬ truthy c.email) →
      (truthy req.phoneNumber → c.phoneNumber = req.phoneNumber) →
      (¬ truthy req.phoneNumber → ¬ truthy c.phoneNumber) →
      (ContactLinkingEngine.findExactMatch existing req).isSome = true) := by
  constructor
  · intro c h
    have hmem : c ∈ existing := List.mem_of_find?_eq_some h
    have hp := List.find?_some h
    rw [Bool.and_eq_true] at hp
    refine ⟨hmem, ?_, ?_, ?_, ?_⟩
    · intro ht
      have := hp.1
      rw [if_pos ht] at this
      exact beq_iff_eq.1 this
    · intro ht
      have := hp.1
      rw [if_neg ht] at this
      exact of_decide_eq_true this
    · intro ht
      have := hp.2
      rw [if_pos ht] at this
      exact beq_iff_eq.1 this
    · intro ht
      have := hp.2
      rw [if_neg ht] at this
      exact of_decide_eq_true this
  · intro c hmem h1 h2 h3 h4
    unfold ContactLinkingEngine.findExactMatch
    rw [List.find?_isSome]
    refine ⟨c, hmem, ?_⟩
    rw [Bool.and_eq_true]
    constructor
    · by_cases ht : truthy req.email
      · rw [if_pos ht]
        exact beq_iff_eq.2 (h1 ht)
      · rw [if_neg ht]
        exact decide_eq_true (h2 ht)
    · by_cases ht : truthy req.phoneNumber
      · rw [if_pos ht]
        exact beq_iff_eq.2 (h3 ht)
      · rw [if_neg ht]
        exact decide_eq_true (h4 ht)

theorem findExactMatch_strict_amended_witness :
    nullEmailCandidate ∈ [nullEmailCandidate] ∧
    (truthy emptyEmailReq.email → nullEmailCandidate.email = emptyEmailReq.email) ∧
    (¬ truthy emptyEmailReq.email → ¬ truthy nullEmailCandidate.email) ∧
    (truthy emptyEmailReq.phoneNumber →
      nullEmailCandidate.phoneNumber = emptyEmailReq.phoneNumber) ∧
    (¬ truthy emptyEmailReq.phoneNumber → ¬ truthy nullEmailCandidate.phoneNumber) :=
  (findExactMatch_strict_amended [nullEmailCandidate] emptyEmailReq).1
    nullEmailCandidate (by decide)

theorem findPrimaryFromContacts_error_linking (s : Store) (l : List Contact) :
    ∀ e, ContactLinkingEngine.findPrimaryFromContacts s l = .error e →
      ∃ msg, e = ServiceError.linking msg := by
  intro e h
  unfold ContactLinkingEngine.findPrimaryFromContacts at h
  cases hfind : l.find? (fun c => c.linkPrecedence == LinkPrecedence.primary) with
  | some p => rw [hfind] at h; cases h
  | none =>
    rw [hfind] at h
    dsimp only at h
    cases hloop : ContactLinkingEngine.findPrimaryFromContactsLoop s l with
    | some p => rw [hloop] at h; cases h
    | none =>
      rw [hloop] at h
      dsimp only at h
      injection h with h'
      exact ⟨_, h'.symm⟩

theorem executeStrategy_error_linking (s : Store) (strat : ContactLinkingStrategy)
    (existing : List Contact) (req : IdentifyRequest) :
    ∀ e, ContactLinkingEngine.executeStrategy s strat existing req = .error e →
      ∃ msg, e = ServiceError.linking msg := by
  intro e h
  cases strat with
  | CREATE_NEW_PRIMARY =>
    unfold ContactLinkingEngine.executeStrategy at h
    cases h
  | RETURN_EXISTING =>
    unfold ContactLinkingEngine.executeStrategy ContactLinkingEngine.returnExisting at h
    cases hex : ContactLinkingEngine.findExactMatch existing req with
    | none =>
      rw [hex] at h
      dsimp only at h
      injection h with h'
      exact ⟨_, h'.symm⟩
    | some m =>
      rw [hex] at h
      dsimp only at h
      cases hfp : ContactLinkingEngine.findPrimaryFromContacts s existing with
      | error e' =>
        rw [hfp] at h
        dsimp only at h
        injection h with h'
        subst h'
        exact findPrimaryFromContacts_error_linking s existing _ hfp
      | ok pc => rw [hfp] at h; cases h
  | CREATE_SECONDARY =>
    unfold ContactLinkingEngine.executeStrategy ContactLinkingEngine.createSecondary at h
    cases hfp : ContactLinkingEngine.findPrimaryFromContacts s existing with
    | error e' =>
      rw [hfp] at h
      dsimp only at h
      injection h with h'
      subst h'
      exact findPrimaryFromContacts_error_linking s existing _ hfp
    | ok pc => rw [hfp] at h; cases h
  | LINK_EXISTING_PRIMARIES =>
    unfold ContactLinkingEngine.executeStrategy ContactLinkingEngine.linkExistingPrimaries at h
    by_cases hp2 : (existing.filter
        (fun c => c.linkPrecedence == LinkPrecedence.primary)).length < 2
    · rw [if_pos hp2] at h
      injection h with h'
      exact ⟨_, h'.symm⟩
    · rw [if_neg hp2] at h
      cases hsort : stableSort createdLe
          (existing.filter (fun c => c.linkPrecedence == LinkPrecedence.primary)) with
      | nil =>
        rw [hsort] at h
        dsimp only at h
        injection h with h'
        exact ⟨_, h'.symm⟩
      | cons oldest rest =>
        rw [hsort] at h
        cases h

def emptyDB : Store := { contacts := [], nextId := 1, now := 0 }

def emptyStringReq : IdentifyRequest := { email := some "", phoneNumber := none }

/-- C7 counterexample: an observation whose email is present (the empty
string) and whose phone is absent is rejected with the validation error even
though not both fields are absent, refuting the "only if both absent" half
of the claim. -/
theorem identify_invalid_observation_counterexample :
    (ContactService.identifyContact emptyDB emptyStringReq).1 =
        Except.error (.validation "Either email or phoneNumber must be provided") ∧
      emptyStringReq.email ≠ none := by
  refine ⟨rfl, by decide⟩

/-- C7 amended: `identifyContact` fails with the validation error
(InvalidObservation) iff both email and phone are absent *or empty strings*
(JavaScript falsiness); in that case the failure occurs before
classification and no store operation is performed — the store is returned
unchanged. -/
theorem identify_invalid_observation_amended (s : Store) (req : IdentifyRequest) :
    ((∃ msg, (ContactService.identifyContact s req).1 =
        Except.error (.validation msg)) ↔
      (¬ truthy req.email ∧ ¬ truthy req.phoneNumber)) ∧
    (¬ truthy req.email ∧ ¬ truthy req.phoneNumber →
      (ContactService.identifyContact s req).2 = s) := by
  constructor
  · constructor
    · rintro ⟨msg, hmsg⟩
      by_contra hval
      unfold ContactService.identifyContact at hmsg
      rw [if_neg hval] at hmsg
      dsimp only at hmsg
      cases hexec : ContactLinkingEngine.executeStrategy s
          (ContactLinkingEngine.determineContactStrategy
            (ContactRepository.findByEmailOrPhoneNumber s req.email req.phoneNumber) req)
          (ContactRepository.findByEmailOrPhoneNumber s req.email req.phoneNumber) req with
      | error e =>
        rw [hexec] at hmsg
        dsimp only at hmsg
        injection hmsg with h'
        rcases executeStrategy_error_linking s _ _ req e hexec with ⟨m, hm⟩
        rw [hm] at h'
        cases h'
      | ok p =>
        rw [hexec] at hmsg
        dsimp only at hmsg
        cases hmsg
    · intro hval
      refine ⟨"Either email or phoneNumber must be provided", ?_⟩
      unfold ContactService.identifyContact
      rw [if_pos hval]
  · intro hval
    unfold ContactService.identifyContact
    rw [if_pos hval]

theorem identify_invalid_observation_amended_witness :
    ((∃ msg, (ContactService.identifyContact emptyDB emptyStringReq).1 =
        Except.error (.validation msg)) ↔
      (¬ truthy emptyStringReq.email ∧ ¬ truthy emptyStringReq.phoneNumber)) ∧
    (¬ truthy emptyStringReq.email ∧ ¬ truthy emptyStringReq.phoneNumber →
      (ContactService.identifyContact emptyDB emptyStringReq).2 = emptyDB) :=
  identify_invalid_observation_amended emptyDB emptyStringReq
/-! ### Idempotence (C4) -/

/-- A row carrying exactly the observation's (truthiness-normalized)
fields, as the engine's exact-match test sees them. -/
def matchesObservation (req : IdentifyRequest) (w : Contact) : Prop :=
  w.deletedAt = none ∧
  (truthy req.email → w.email = req.email) ∧
  (¬ truthy req.email → ¬ truthy w.email) ∧
  (truthy req.phoneNumber → w.phoneNumber = req.phoneNumber) ∧
  (¬ truthy req.phoneNumber → ¬ truthy w.phoneNumber)

theorem created_row_matches (s : Store) (req : IdentifyRequest) (li : Option Nat)
    (pr : LinkPrecedence) :
    matchesObservation req (ContactRepository.create s req.email req.phoneNumber li pr).1 := by
  refine ⟨create_fst_deletedAt s _ _ li pr, ?_, ?_, ?_, ?_⟩
  · intro ht
    rw [create_fst_email, if_pos ht]
  · intro ht
    rw [create_fst_email, if_neg ht]
    simp [truthy]
  · intro ht
    rw [create_fst_phoneNumber, if_pos ht]
  · intro ht
    rw [create_fst_phoneNumber, if_neg ht]
    simp [truthy]

theorem classify_returns_existing (s1 : Store) (req : IdentifyRequest)
    (htp : truthy req.email ∨ truthy req.phoneNumber = true)
    (w : Contact) (hw : w ∈ s1.contacts) (hP : matchesObservation req w) :
    ContactLinkingEngine.determineContactStrategy
        (ContactRepository.findByEmailOrPhoneNumber s1 req.email req.phoneNumber) req =
      ContactLinkingStrategy.RETURN_EXISTING := by
  rcases hP with ⟨hdel, he1, he2, hp1, hp2⟩
  have hwmem : w ∈ ContactRepository.findByEmailOrPhoneNumber s1 req.email req.phoneNumber := by
    refine (mem_findByEmailOrPhoneNumber htp).2 ⟨hw, hdel, ?_⟩
    rcases htp with ht | ht
    · exact Or.inl ⟨ht, he1 ht⟩
    · exact Or.inr ⟨ht, hp1 ht⟩
  have hsome : (ContactLinkingEngine.findExactMatch
      (ContactRepository.findByEmailOrPhoneNumber s1 req.email req.phoneNumber) req).isSome = true := by
    unfold ContactLinkingEngine.findExactMatch
    rw [List.find?_isSome]
    refine ⟨w, hwmem, ?_⟩
    rw [Bool.and_eq_true]
    constructor
    · by_cases ht : truthy req.email
      · rw [if_pos ht]
        exact beq_iff_eq.2 (he1 ht)
      · rw [if_neg ht]
        exact decide_eq_true (he2 ht)
    · by_cases ht : truthy req.phoneNumber
      · rw [if_pos ht]
        exact beq_iff_eq.2 (hp1 ht)
      · rw [if_neg ht]
        exact decide_eq_true (hp2 ht)
  unfold ContactLinkingEngine.determineContactStrategy
  rw [if_neg (by
    intro hlen
    rw [List.length_eq_zero] at hlen
    rw [hlen] at hwmem
    cases hwmem)]
  rw [if_pos hsome]

theorem returnExisting_preserves_store (s : Store) (existing : List Contact)
    (req : IdentifyRequest) (res : StrategyExecutionResult) (s' : Store)
    (h : ContactLinkingEngine.returnExisting s existing req = .ok (res, s')) : s' = s := by
  unfold ContactLinkingEngine.returnExisting at h
  cases hex : ContactLinkingEngine.findExactMatch existing req with
  | none => rw [hex] at h; cases h
  | some m =>
    rw [hex] at h
    dsimp only at h
    cases hfp : ContactLinkingEngine.findPrimaryFromContacts s existing with
    | error e => rw [hfp] at h; cases h
    | ok pc =>
      rw [hfp] at h
      dsimp only at h
      injection h with h'
      exact (congrArg Prod.snd h').symm

theorem identify_snd_of_return_existing (s1 : Store) (req : IdentifyRequest)
    (hstrat : ContactLinkingEngine.determineContactStrategy
        (ContactRepository.findByEmailOrPhoneNumber s1 req.email req.phoneNumber) req =
      ContactLinkingStrategy.RETURN_EXISTING) :
    (ContactService.identifyContact s1 req).2 = s1 := by
  unfold ContactService.identifyContact
  by_cases hval : ¬ truthy req.email ∧ ¬ truthy req.phoneNumber
  · rw [if_pos hval]
  · rw [if_neg hval]
    dsimp only
    rw [hstrat]
    cases hexec : ContactLinkingEngine.executeStrategy s1
        ContactLinkingStrategy.RETURN_EXISTING
        (ContactRepository.findByEmailOrPhoneNumber s1 req.email req.phoneNumber) req with
    | error e => rfl
    | ok p =>
      dsimp only
      have : p.2 = s1 := by
        have hre : ContactLinkingEngine.returnExisting s1
            (ContactRepository.findByEmailOrPhoneNumber s1 req.email req.phoneNumber) req =
            .ok (p.1, p.2) := by
          rw [← hexec]
          rfl
        exact returnExisting_preserves_store _ _ _ _ _ hre
      rw [this]

theorem findExactMatch_fields {existing : List Contact} {req : IdentifyRequest} {c : Contact}
    (h : ContactLinkingEngine.findExactMatch existing req = some c) :
    c ∈ existing ∧
    (truthy req.email → c.email = req.email) ∧
    (¬ truthy req.email → ¬ truthy c.email) ∧
    (truthy req.phoneNumber → c.phoneNumber = req.phoneNumber) ∧
    (¬ truthy req.phoneNumber → ¬ truthy c.phoneNumber) := by
  have hmem : c ∈ existing := List.mem_of_find?_eq_some h
  have hp := List.find?_some h
  rw [Bool.and_eq_true] at hp
  refine ⟨hmem, ?_, ?_, ?_, ?_⟩
  · intro ht
    have := hp.1
    rw [if_pos ht] at this
    exact beq_iff_eq.1 this
  · intro ht
    have := hp.1
    rw [if_neg ht] at this
    exact of_decide_eq_true this
  · intro ht
    have := hp.2
    rw [if_pos ht] at this
    exact beq_iff_eq.1 this
  · intro ht
    have := hp.2
    rw [if_neg ht] at this
    exact of_decide_eq_true this

/-- C4: idempotence.  If `identifyContact` succeeds, running it again with
the same (email, phone) observation classifies the request as
RETURN_EXISTING (NoOp) and performs no writes: the store after the second
call is unchanged, so no new record is created the second time. -/
theorem identify_idempotent (s : Store) (req : IdentifyRequest)
    (r1 : IdentifyResponse) (s1 : Store)
    (h : ContactService.identifyContact s req = (Except.ok r1, s1)) :
    ContactLinkingEngine.determineContactStrategy
        (ContactRepository.findByEmailOrPhoneNumber s1 req.email req.phoneNumber) req =
      ContactLinkingStrategy.RETURN_EXISTING ∧
    (ContactService.identifyContact s1 req).2 = s1 := by
  unfold ContactService.identifyContact at h
  by_cases hval : ¬ truthy req.email ∧ ¬ truthy req.phoneNumber
  · rw [if_pos hval] at h
    simp at h
  · rw [if_neg hval] at h
    dsimp only at h
    have htp : truthy req.email ∨ truthy req.phoneNumber = true := by
      by_cases h1 : truthy req.email
      · exact Or.inl h1
      · by_cases h2 : truthy req.phoneNumber
        · exact Or.inr h2
        · exact absurd ⟨h1, h2⟩ hval
    cases hexec : ContactLinkingEngine.executeStrategy s
        (ContactLinkingEngine.determineContactStrategy
          (ContactRepository.findByEmailOrPhoneNumber s req.email req.phoneNumber) req)
        (ContactRepository.findByEmailOrPhoneNumber s req.email req.phoneNumber) req with
    | error e =>
      rw [hexec] at h
      simp at h
    | ok p =>
      rw [hexec] at h
      dsimp only at h
      rw [Prod.mk.injEq] at h
      have hs1 : s1 = p.2 := h.2.symm
      subst hs1
      have hwit : ∃ w ∈ p.2.contacts, matchesObservation req w := by
        cases hstrat : ContactLinkingEngine.determineContactStrategy
            (ContactRepository.findByEmailOrPhoneNumber s req.email req.phoneNumber) req with
        | CREATE_NEW_PRIMARY =>
          rw [hstrat] at hexec
          unfold ContactLinkingEngine.executeStrategy at hexec
          dsimp only at hexec
          injection hexec with h'
          have hp2 : p.2 = (ContactRepository.create s req.email req.phoneNumber
              none .primary).2 := (congrArg Prod.snd h').symm
          refine ⟨(ContactRepository.create s req.email req.phoneNumber none .primary).1,
            ?_, created_row_matches s req none .primary⟩
          rw [hp2, create_snd_contacts]
          exact List.mem_append_right _ (List.mem_singleton_self _)
        | RETURN_EXISTING =>
          rw [hstrat] at hexec
          unfold ContactLinkingEngine.executeStrategy
            ContactLinkingEngine.returnExisting at hexec
          cases hex : ContactLinkingEngine.findExactMatch
              (ContactRepository.findByEmailOrPhoneNumber s req.email req.phoneNumber) req with
          | none => rw [hex] at hexec; cases hexec
          | some m =>
            rw [hex] at hexec
            dsimp only at hexec
            cases hfp : ContactLinkingEngine.findPrimaryFromContacts s
                (ContactRepository.findByEmailOrPhoneNumber s req.email req.phoneNumber) with
            | error e => rw [hfp] at hexec; cases hexec
            | ok pc =>
              rw [hfp] at hexec
              dsimp only at hexec
              injection hexec with h'
              have hp2 : p.2 = s := (congrArg Prod.snd h').symm
              rcases findExactMatch_fields hex with ⟨hmem, he1, he2, hq1, hq2⟩
              have hmem' := (mem_findByEmailOrPhoneNumber htp).1 hmem
              refine ⟨m, ?_, hmem'.2.1, he1, he2, hq1, hq2⟩
              rw [hp2]
              exact hmem'.1
        | CREATE_SECONDARY =>
          rw [hstrat] at hexec
          unfold ContactLinkingEngine.executeStrategy
            ContactLinkingEngine.createSecondary at hexec
          cases hfp : ContactLinkingEngine.findPrimaryFromContacts s
              (ContactRepository.findByEmailOrPhoneNumber s req.email req.phoneNumber) with
          | error e => rw [hfp] at hexec; cases hexec
          | ok pc =>
            rw [hfp] at hexec
            dsimp only at hexec
            injection hexec with h'
            have hp2 : p.2 = (ContactRepository.create s req.email req.phoneNumber
                (some pc.id) .secondary).2 := (congrArg Prod.snd h').symm
            refine ⟨(ContactRepository.create s req.email req.phoneNumber
              (some pc.id) .secondary).1, ?_, created_row_matches s req (some pc.id) .secondary⟩
            rw [hp2, create_snd_contacts]
            exact List.mem_append_right _ (List.mem_singleton_self _)
        | LINK_EXISTING_PRIMARIES =>
          rw [hstrat] at hexec
          unfold ContactLinkingEngine.executeStrategy
            ContactLinkingEngine.linkExistingPrimaries at hexec
          by_cases hp2len : ((ContactRepository.findByEmailOrPhoneNumber s req.email
              req.phoneNumber).filter
              (fun c => c.linkPrecedence == LinkPrecedence.primary)).length < 2
          · rw [if_pos hp2len] at hexec
            cases hexec
          · rw [if_neg hp2len] at hexec
            cases hsort : stableSort createdLe
                ((ContactRepository.findByEmailOrPhoneNumber s req.email
                  req.phoneNumber).filter
                  (fun c => c.linkPrecedence == LinkPrecedence.primary)) with
            | nil => rw [hsort] at hexec; cases hexec
            | cons oldest rest =>
              rw [hsort] at hexec
              dsimp only at hexec
              injection hexec with h'
              have hp2 : p.2 = (ContactRepository.create
                  (rest.foldl (fun st q =>
                    ContactLinkingEngine.convertPrimaryToSecondary st q oldest.id) s)
                  req.email req.phoneNumber (some oldest.id) .secondary).2 :=
                (congrArg Prod.snd h').symm
              refine ⟨(ContactRepository.create
                  (rest.foldl (fun st q =>
                    ContactLinkingEngine.convertPrimaryToSecondary st q oldest.id) s)
                  req.email req.phoneNumber (some oldest.id) .secondary).1, ?_,
                created_row_matches _ req (some oldest.id) .secondary⟩
              rw [hp2, create_snd_contacts]
              exact List.mem_append_right _ (List.mem_singleton_self _)
      rcases hwit with ⟨w, hw, hP⟩
      have hcls := classify_returns_existing p.2 req htp w hw hP
      exact ⟨hcls, identify_snd_of_return_existing p.2 req hcls⟩

theorem identify_idempotent_witness :
    ContactService.identifyContact emptyDB phoneOnlyReq =
        (Except.ok ((ContactService.identifyContact emptyDB phoneOnlyReq).1.toOption.getD
          ⟨⟨1, [], ["1"], []⟩⟩), (ContactService.identifyContact emptyDB phoneOnlyReq).2) ∧
    (ContactLinkingEngine.determineContactStrategy
        (ContactRepository.findByEmailOrPhoneNumber
          (ContactService.identifyContact emptyDB phoneOnlyReq).2
          phoneOnlyReq.email phoneOnlyReq.phoneNumber) phoneOnlyReq =
      ContactLinkingStrategy.RETURN_EXISTING ∧
    (ContactService.identifyContact
        (ContactService.identifyContact emptyDB phoneOnlyReq).2 phoneOnlyReq).2 =
      (ContactService.identifyContact emptyDB phoneOnlyReq).2) :=
  ⟨rfl, identify_idempotent emptyDB phoneOnlyReq _ _ rfl⟩
/-! ### Serializing a component (C5) -/

/-- Timestamps non-decreasing in insertion order (ids are assigned in
creation order and `createdAt` comes from a monotone clock). -/
def CAMono (s : Store) : Prop :=
  s.contacts.Pairwise (fun a b => a.createdAt ≤ b.createdAt)

instance (s : Store) : Decidable (CAMono s) := by
  unfold CAMono; infer_instance

/-- No stored empty-string fields: `create` coerces falsy fields to null,
so reachable stores never contain `some ""`. -/
def NoEmptyFields (s : Store) : Prop :=
  ∀ c ∈ s.contacts, c.email ≠ some "" ∧ c.phoneNumber ≠ some ""

instance (s : Store) : Decidable (NoEmptyFields s) := by
  unfold NoEmptyFields; infer_instance

/-- Modelled from the spec's words (§4.3): deduplicate keeping first
occurrences. -/
def dedupKeepFirst (l : List String) : List String :=
  l.foldl (fun acc v => if acc.contains v then acc else acc ++ [v]) []

/-- The non-deleted secondary rows of `p`'s component, in store (= ascending
id) order. -/
def componentSecondaries (s : Store) (p : Contact) : List Contact :=
  s.contacts.filter (fun c =>
    c.deletedAt == none && c.linkPrecedence == LinkPrecedence.secondary &&
      c.linkedId == some p.id)

theorem filter_component_split (p : Contact) (F G : Contact → Bool)
    (hFp : F p = true) (hGp : G p = false) :
    ∀ l : List Contact, l.Pairwise (fun a b => a.id < b.id) → p ∈ l →
      (∀ c ∈ l, c.id ≠ p.id → F c = G c) →
      ∃ l1 l2, l.filter F = l1 ++ p :: l2 ∧ l.filter G = l1 ++ l2 := by
  intro l
  induction l with
  | nil => intro _ hp; cases hp
  | cons a l ih =>
    intro hpw hp hFG
    rcases List.pairwise_cons.1 hpw with ⟨ha, hl⟩
    by_cases hap : a.id = p.id
    · have hpa : p = a := by
        rcases List.mem_cons.1 hp with h | h
        · exact h
        · exact absurd hap (Nat.ne_of_lt (ha p h))
      subst hpa
      have hpnotl : ∀ c ∈ l, c.id ≠ p.id := fun c hc => (Nat.ne_of_lt (ha c hc)).symm
      have hcongr : l.filter F = l.filter G :=
        List.filter_congr (fun c hc => hFG c (List.mem_cons_of_mem _ hc) (hpnotl c hc))
      refine ⟨[], l.filter G, ?_, ?_⟩
      · rw [List.filter_cons_of_pos hFp, hcongr]
        rfl
      · rw [List.filter_cons_of_neg (by simp [hGp])]
        rfl
    · have hpl : p ∈ l := by
        rcases List.mem_cons.1 hp with h | h
        · rw [h] at hap
          exact absurd rfl hap
        · exact h
      rcases ih hl hpl (fun c hc => hFG c (List.mem_cons_of_mem _ hc)) with
        ⟨l1, l2, hF, hG⟩
      have hFGa : F a = G a := hFG a (List.mem_cons_self _ _) hap
      cases hFa : F a with
      | true =>
        refine ⟨a :: l1, l2, ?_, ?_⟩
        · rw [List.filter_cons_of_pos hFa, hF]
          rfl
        · rw [List.filter_cons_of_pos (hFGa ▸ hFa), hG]
          rfl
      | false =>
        refine ⟨l1, l2, ?_, ?_⟩
        · rw [List.filter_cons_of_neg (by simp [hFa]), hF]
        · rw [List.filter_cons_of_neg (by simp [hFGa ▸ hFa]), hG]

theorem linkedKeyLe_of_ranks {a b : Contact} (ha : precRank a.linkPrecedence = 1)
    (hb : precRank b.linkPrecedence = 1) (hab : a.createdAt ≤ b.createdAt) :
    linkedKeyLe a b = true := by
  unfold linkedKeyLe
  rw [ha, hb]
  simp [hab]

theorem stableSort_linked_component (p : Contact) (hp : precRank p.linkPrecedence = 0)
    (l1 l2 : List Contact)
    (hrank : ∀ c ∈ l1 ++ l2, precRank c.linkPrecedence = 1)
    (hca : (l1 ++ l2).Pairwise (fun a b => a.createdAt ≤ b.createdAt)) :
    stableSort linkedKeyLe (l1 ++ p :: l2) = p :: (l1 ++ l2) := by
  unfold stableSort
  rw [List.foldl_append]
  have h1 : l1.foldl (fun acc a => insertStable linkedKeyLe a acc) [] = l1 := by
    have := foldl_insertStable_sorted linkedKeyLe l1 [] (by simp) ?_
    · simpa using this
    · refine (hca.sublist (List.sublist_append_left l1 l2)).imp_of_mem ?_
      intro a b hamem hbmem hab
      exact linkedKeyLe_of_ranks (hrank a (List.mem_append_left _ hamem))
        (hrank b (List.mem_append_left _ hbmem)) hab
  rw [List.foldl_cons, h1]
  have h2 : insertStable linkedKeyLe p l1 = p :: l1 := by
    cases l1 with
    | nil => rfl
    | cons b l =>
      have hb : precRank b.linkPrecedence = 1 :=
        hrank b (List.mem_append_left _ (List.mem_cons_self _ _))
      have hle : linkedKeyLe b p = false := by
        unfold linkedKeyLe
        rw [hb, hp]
        simp
      unfold insertStable
      rw [hle]
      simp
  rw [h2]
  have h3 : l2.foldl (fun acc a => insertStable linkedKeyLe a acc) (p :: l1) = (p :: l1) ++ l2 := by
    refine foldl_insertStable_sorted linkedKeyLe l2 (p :: l1) ?_ ?_
    · intro b hb a ha
      rcases List.mem_cons.1 hb with rfl | hb
      · unfold linkedKeyLe
        rw [hp, hrank a (List.mem_append_right _ ha)]
        simp
      · refine linkedKeyLe_of_ranks (hrank b (List.mem_append_left _ hb))
          (hrank a (List.mem_append_right _ ha)) ?_
        exact (List.pairwise_append.1 hca).2.2 b hb a ha
    · refine ((List.pairwise_append.1 hca).2.1).imp_of_mem ?_
      intro a b hamem hbmem hab
      exact linkedKeyLe_of_ranks (hrank a (List.mem_append_right _ hamem))
        (hrank b (List.mem_append_right _ hbmem)) hab
  rw [h3]
  rfl

theorem findLinkedContacts_component (s : Store) (p : Contact)
    (hWF : WF s) (hMono : CAMono s)
    (hp : p ∈ s.contacts) (hprim : p.linkPrecedence = .primary) (hdel : p.deletedAt = none)
    (hone : ∀ c ∈ s.contacts, c.deletedAt = none → c.linkedId = some p.id → c.id ≠ p.id →
      c.linkPrecedence = .secondary) :
    ContactRepository.findLinkedContacts s p.id = p :: componentSecondaries s p := by
  have hsplit := filter_component_split p
    (fun c => c.deletedAt == none && (c.id == p.id || c.linkedId == some p.id))
    (fun c => c.deletedAt == none && c.linkPrecedence == LinkPrecedence.secondary &&
      c.linkedId == some p.id)
    (by simp [hdel]) (by simp [hprim]) s.contacts hWF.1 hp ?_
  · rcases hsplit with ⟨l1, l2, hF, hG⟩
    unfold ContactRepository.findLinkedContacts componentSecondaries
    rw [hF, hG]
    have hsubG : l1 ++ l2 = s.contacts.filter (fun c =>
        c.deletedAt == none && c.linkPrecedence == LinkPrecedence.secondary &&
          c.linkedId == some p.id) := hG.symm
    refine stableSort_linked_component p (by rw [hprim]; rfl) l1 l2 ?_ ?_
    · intro c hc
      rw [hsubG] at hc
      have := (List.mem_filter.1 hc).2
      simp only [Bool.and_eq_true, beq_iff_eq] at this
      rw [this.1.2]
      rfl
    · rw [hsubG]
      exact hMono.sublist (List.filter_sublist _)
  · intro c hc hcid
    have hidb : (c.id == p.id) = false := beq_eq_false_iff_ne.2 hcid
    by_cases hcdel : c.deletedAt = none
    · by_cases hclid : c.linkedId = some p.id
      · have hsec := hone c hc hcdel hclid hcid
        simp [hcdel, hclid, hidb, hsec]
      · have hlidb : (c.linkedId == some p.id) = false := beq_eq_false_iff_ne.2 hclid
        simp [hcdel, hidb, hlidb]
    · have hdelb : (c.deletedAt == none) = false := beq_eq_false_iff_ne.2 hcdel
      simp [hdelb]

theorem emailsStep_self (init : List String) (p : Contact)
    (hinit : ∀ v, p.email = some v → v ≠ "" → v ∈ init) :
    ContactService.emailsStep init p = init := by
  unfold ContactService.emailsStep
  cases he : p.email with
  | none => rfl
  | some v =>
    by_cases hv : v = ""
    · simp [hv]
    · have hmemv : v ∈ init := hinit v he hv
      simp [hv, hmemv]

theorem phonesStep_self (init : List String) (p : Contact)
    (hinit : ∀ v, p.phoneNumber = some v → v ≠ "" → v ∈ init) :
    ContactService.phonesStep init p = init := by
  unfold ContactService.phonesStep
  cases he : p.phoneNumber with
  | none => rfl
  | some v =>
    by_cases hv : v = ""
    · simp [hv]
    · have hmemv : v ∈ init := hinit v he hv
      simp [hv, hmemv]

theorem foldl_emailsStep_filterMap :
    ∀ (rest : List Contact) (acc : List String), (∀ c ∈ rest, c.email ≠ some "") →
      rest.foldl ContactService.emailsStep acc =
        (rest.filterMap (fun c => c.email)).foldl
          (fun acc v => if acc.contains v then acc else acc ++ [v]) acc := by
  intro rest
  induction rest with
  | nil => intro acc _; rfl
  | cons c rest ih =>
    intro acc hne
    rw [List.foldl_cons]
    cases he : c.email with
    | none =>
      rw [List.filterMap_cons_none he]
      have hstep : ContactService.emailsStep acc c = acc := by
        unfold ContactService.emailsStep
        rw [he]
      rw [hstep]
      exact ih acc (fun d hd => hne d (List.mem_cons_of_mem _ hd))
    | some v =>
      have hv : v ≠ "" := by
        intro hv
        exact hne c (List.mem_cons_self _ _) (by rw [he, hv])
      rw [List.filterMap_cons_some he, List.foldl_cons]
      have hstep : ContactService.emailsStep acc c =
          (if acc.contains v then acc else acc ++ [v]) := by
        unfold ContactService.emailsStep
        rw [he]
        by_cases hc : acc.contains v
        · simp [hc, hv]
        · simp [hc, hv]
      rw [hstep]
      exact ih _ (fun d hd => hne d (List.mem_cons_of_mem _ hd))

theorem foldl_phonesStep_filterMap :
    ∀ (rest : List Contact) (acc : List String), (∀ c ∈ rest, c.phoneNumber ≠ some "") →
      rest.foldl ContactService.phonesStep acc =
        (rest.filterMap (fun c => c.phoneNumber)).foldl
          (fun acc v => if acc.contains v then acc else acc ++ [v]) acc := by
  intro rest
  induction rest with
  | nil => intro acc _; rfl
  | cons c rest ih =>
    intro acc hne
    rw [List.foldl_cons]
    cases he : c.phoneNumber with
    | none =>
      rw [List.filterMap_cons_none he]
      have hstep : ContactService.phonesStep acc c = acc := by
        unfold ContactService.phonesStep
        rw [he]
      rw [hstep]
      exact ih acc (fun d hd => hne d (List.mem_cons_of_mem _ hd))
    | some v =>
      have hv : v ≠ "" := by
        intro hv
        exact hne c (List.mem_cons_self _ _) (by rw [he, hv])
      rw [List.filterMap_cons_some he, List.foldl_cons]
      have hstep : ContactService.phonesStep acc c =
          (if acc.contains v then acc else acc ++ [v]) := by
        unfold ContactService.phonesStep
        rw [he]
        by_cases hc : acc.contains v
        · simp [hc, hv]
        · simp [hc, hv]
      rw [hstep]
      exact ih _ (fun d hd => hne d (List.mem_cons_of_mem _ hd))

theorem extractUniqueEmails_component (p : Contact) (secs : List Contact)
    (hpe : p.email ≠ some "") (hsecs : ∀ c ∈ secs, c.email ≠ some "") :
    ContactService.extractUniqueEmails (p :: secs) p =
      dedupKeepFirst (p.email.toList ++ secs.filterMap (fun c => c.email)) := by
  unfold ContactService.extractUniqueEmails dedupKeepFirst
  rw [List.foldl_append]
  cases hpv : p.email with
  | none =>
    rw [List.foldl_cons]
    rw [emailsStep_self _ p (fun v hv => by rw [hpv] at hv; cases hv)]
    rw [foldl_emailsStep_filterMap secs _ hsecs]
    rfl
  | some v =>
    have hv : v ≠ "" := fun h => hpe (by rw [hpv, h])
    rw [List.foldl_cons]
    rw [emailsStep_self _ p (fun w hw _ => by
      rw [hpv] at hw
      injection hw with hw'
      rw [← hw']
      simp [hv])]
    rw [foldl_emailsStep_filterMap secs _ hsecs]
    simp [hv]

theorem extractUniquePhoneNumbers_component (p : Contact) (secs : List Contact)
    (hpe : p.phoneNumber ≠ some "") (hsecs : ∀ c ∈ secs, c.phoneNumber ≠ some "") :
    ContactService.extractUniquePhoneNumbers (p :: secs) p =
      dedupKeepFirst (p.phoneNumber.toList ++ secs.filterMap (fun c => c.phoneNumber)) := by
  unfold ContactService.extractUniquePhoneNumbers dedupKeepFirst
  rw [List.foldl_append]
  cases hpv : p.phoneNumber with
  | none =>
    rw [List.foldl_cons]
    rw [phonesStep_self _ p (fun v hv => by rw [hpv] at hv; cases hv)]
    rw [foldl_phonesStep_filterMap secs _ hsecs]
    rfl
  | some v =>
    have hv : v ≠ "" := fun h => hpe (by rw [hpv, h])
    rw [List.foldl_cons]
    rw [phonesStep_self _ p (fun w hw _ => by
      rw [hpv] at hw
      injection hw with hw'
      rw [← hw']
      simp [hv])]
    rw [foldl_phonesStep_filterMap secs _ hsecs]
    simp [hv]

/-- C5: serialization of a component.  With the component read through
`findLinkedContacts`, the response view has the primary's id; its `emails`
and `phoneNumbers` are deduplicated keeping first occurrences of the
primary's own value (if present) followed by the secondaries' values in
ascending id order, skipping nulls; and `secondaryContactIds` is the list of
the ids of every non-primary row of the component, in ascending id order. -/
theorem serialize_component_spec (s : Store) (p : Contact)
    (hWF : WF s) (hMono : CAMono s) (hNE : NoEmptyFields s)
    (hp : p ∈ s.contacts) (hprim : p.linkPrecedence = .primary) (hdel : p.deletedAt = none)
    (hone : ∀ c ∈ s.contacts, c.deletedAt = none → c.linkedId = some p.id → c.id ≠ p.id →
      c.linkPrecedence = .secondary) :
    (ContactService.formatIdentifyResponse
      { primaryContact := p,
        allLinkedContacts := ContactRepository.findLinkedContacts s p.id }).contact =
      { primaryContactId := p.id
        emails := dedupKeepFirst (p.email.toList ++
          (componentSecondaries s p).filterMap (fun c => c.email))
        phoneNumbers := dedupKeepFirst (p.phoneNumber.toList ++
          (componentSecondaries s p).filterMap (fun c => c.phoneNumber))
        secondaryContactIds := (componentSecondaries s p).map (fun c => c.id) } ∧
    ((componentSecondaries s p).map (fun c => c.id)).Pairwise (fun a b => a < b) := by
  have hcomp := findLinkedContacts_component s p hWF hMono hp hprim hdel hone
  have hsecs : ∀ c ∈ componentSecondaries s p, c ∈ s.contacts ∧ c.deletedAt = none ∧
      c.linkPrecedence = .secondary ∧ c.linkedId = some p.id := by
    intro c hc
    have h1 := List.mem_filter.1 hc
    have h2 := h1.2
    simp only [Bool.and_eq_true, beq_iff_eq] at h2
    exact ⟨h1.1, h2.1.1, h2.1.2, h2.2⟩
  have hsecs_ne : ∀ c ∈ componentSecondaries s p, c.id ≠ p.id := by
    intro c hc hcid
    have hcp : c = p := hWF.uniqueId (hsecs c hc).1 hp hcid
    have hsec := (hsecs c hc).2.2.1
    rw [hcp, hprim] at hsec
    cases hsec
  constructor
  · unfold ContactService.formatIdentifyResponse
    rw [hcomp]
    dsimp only
    rw [ContactView.mk.injEq]
    refine ⟨rfl, ?_, ?_, ?_⟩
    · exact extractUniqueEmails_component p _ (hNE p hp).1
        (fun c hc => (hNE c (hsecs c hc).1).1)
    · exact extractUniquePhoneNumbers_component p _ (hNE p hp).2
        (fun c hc => (hNE c (hsecs c hc).1).2)
    · rw [List.filter_cons_of_neg (by simp)]
      rw [List.filter_eq_self.2 ?_]
      intro c hc
      simp only [Bool.and_eq_true, bne_iff_ne, ne_eq, beq_iff_eq]
      exact ⟨hsecs_ne c hc, (hsecs c hc).2.2.1⟩
  · have hpw : (componentSecondaries s p).Pairwise (fun a b => a.id < b.id) :=
      hWF.1.sublist (List.filter_sublist _)
    have := (List.pairwise_map (f := fun c : Contact => c.id)).2 (hpw.imp (fun h => h))
    exact this

def serializeWitnessPrimary : Contact :=
  { id := 1, phoneNumber := some "111", email := some "a", linkedId := none,
    linkPrecedence := .primary, createdAt := 1, updatedAt := 1, deletedAt := none }

def serializeWitnessStore : Store :=
  { contacts :=
      [serializeWitnessPrimary,
       { id := 2, phoneNumber := some "222", email := some "a", linkedId := some 1,
         linkPrecedence := .secondary, createdAt := 2, updatedAt := 2, deletedAt := none },
       { id := 3, phoneNumber := none, email := some "b", linkedId := some 1,
         linkPrecedence := .secondary, createdAt := 3, updatedAt := 3, deletedAt := none }],
    nextId := 4, now := 9 }

theorem serialize_component_spec_witness :
    (WF serializeWitnessStore ∧ CAMono serializeWitnessStore ∧
      NoEmptyFields serializeWitnessStore ∧
      serializeWitnessPrimary ∈ serializeWitnessStore.contacts ∧
      serializeWitnessPrimary.linkPrecedence = .primary ∧
      serializeWitnessPrimary.deletedAt = none ∧
      (∀ c ∈ serializeWitnessStore.contacts, c.deletedAt = none →
        c.linkedId = some serializeWitnessPrimary.id → c.id ≠ serializeWitnessPrimary.id →
        c.linkPrecedence = .secondary)) ∧
    ((ContactService.formatIdentifyResponse
      { primaryContact := serializeWitnessPrimary,
        allLinkedContacts := ContactRepository.findLinkedContacts serializeWitnessStore
          serializeWitnessPrimary.id }).contact =
      { primaryContactId := serializeWitnessPrimary.id
        emails := dedupKeepFirst (serializeWitnessPrimary.email.toList ++
          (componentSecondaries serializeWitnessStore serializeWitnessPrimary).filterMap
            (fun c => c.email))
        phoneNumbers := dedupKeepFirst (serializeWitnessPrimary.phoneNumber.toList ++
          (componentSecondaries serializeWitnessStore serializeWitnessPrimary).filterMap
            (fun c => c.phoneNumber))
        secondaryContactIds := (componentSecondaries serializeWitnessStore
          serializeWitnessPrimary).map (fun c => c.id) } ∧
    ((componentSecondaries serializeWitnessStore serializeWitnessPrimary).map
        (fun c => c.id)).Pairwise (fun a b => a < b)) :=
  ⟨⟨by decide, by decide, by decide, by decide, by decide, by decide, by decide⟩,
    serialize_component_spec serializeWitnessStore serializeWitnessPrimary
      (by decide) (by decide) (by decide) (by decide) (by decide) (by decide) (by decide)⟩
/-! ### The secondary-only candidate path (C10) -/

theorem findPrimaryFromContactsLoop_first (s : Store) :
    ∀ (l : List Contact) (pc : Contact),
      ContactLinkingEngine.findPrimaryFromContactsLoop s l = some pc →
      ∃ l1 c l2, l = l1 ++ c :: l2 ∧
        (∀ b ∈ l1, ¬(b.linkPrecedence = .secondary ∧ idTruthy b.linkedId = true ∧
          (ContactRepository.findPrimaryContact s b.id).isSome = true)) ∧
        c.linkPrecedence = .secondary ∧ idTruthy c.linkedId = true ∧
        ContactRepository.findPrimaryContact s c.id = some pc := by
  intro l
  induction l with
  | nil => intro pc h; cases h
  | cons a l ih =>
    intro pc h
    unfold ContactLinkingEngine.findPrimaryFromContactsLoop at h
    by_cases hc : a.linkPrecedence = .secondary ∧ idTruthy a.linkedId = true
    · rw [if_pos hc] at h
      cases hfp : ContactRepository.findPrimaryContact s a.id with
      | some p =>
        rw [hfp] at h
        dsimp only at h
        injection h with h'
        subst h'
        exact ⟨[], a, l, rfl, by simp, hc.1, hc.2, hfp⟩
      | none =>
        rw [hfp] at h
        dsimp only at h
        rcases ih pc h with ⟨l1, c, l2, hsplit, hpre, hcs, hct, hcf⟩
        refine ⟨a :: l1, c, l2, by rw [hsplit]; rfl, ?_, hcs, hct, hcf⟩
        intro b hb
        rcases List.mem_cons.1 hb with rfl | hb
        · intro hcon
          rw [hfp] at hcon
          cases hcon.2.2
        · exact hpre b hb
    · rw [if_neg hc] at h
      rcases ih pc h with ⟨l1, c, l2, hsplit, hpre, hcs, hct, hcf⟩
      refine ⟨a :: l1, c, l2, by rw [hsplit]; rfl, ?_, hcs, hct, hcf⟩
      intro b hb
      rcases List.mem_cons.1 hb with rfl | hb
      · intro hcon
        exact hc ⟨hcon.1, hcon.2.1⟩
      · exact hpre b hb

/-- C10: when the candidate set is non-empty, has no exact match and
contains no Primary record, the classifier returns CREATE_SECONDARY (never
LINK_EXISTING_PRIMARIES); execution resolves, through the store (one
`linkedId` hop), the primary of the first candidate whose primary is
resolvable, inserts exactly one new secondary row linked to that primary —
touching no existing row, so the components involved are never merged — and
fails with an error, writing nothing, if no candidate's primary is
resolvable. -/
theorem secondary_only_candidates_spec (s : Store) (existing : List Contact)
    (req : IdentifyRequest) (hWF : WF s) (hNC : NoChains s)
    (hne : existing ≠ [])
    (hnoexact : ContactLinkingEngine.findExactMatch existing req = none)
    (hnoprim : existing.filter (fun c => c.linkPrecedence == LinkPrecedence.primary) = []) :
    ContactLinkingEngine.determineContactStrategy existing req =
        ContactLinkingStrategy.CREATE_SECONDARY ∧
    (∀ pc, ContactLinkingEngine.findPrimaryFromContactsLoop s existing = some pc →
      pc ∈ s.contacts ∧ pc.linkPrecedence = .primary ∧
      (∃ l1 c l2, existing = l1 ++ c :: l2 ∧
        (∀ b ∈ l1, ¬(b.linkPrecedence = .secondary ∧ idTruthy b.linkedId = true ∧
          (ContactRepository.findPrimaryContact s b.id).isSome = true)) ∧
        c.linkPrecedence = .secondary ∧
        ContactRepository.findPrimaryContact s c.id = some pc) ∧
      (∃ res, ContactLinkingEngine.createSecondary s existing req =
        .ok (res, (ContactRepository.create s req.email req.phoneNumber
          (some pc.id) .secondary).2) ∧
        res.primaryContact = pc) ∧
      (ContactRepository.create s req.email req.phoneNumber (some pc.id) .secondary).2.contacts
        = s.contacts ++
          [(ContactRepository.create s req.email req.phoneNumber (some pc.id) .secondary).1] ∧
      (ContactRepository.create s req.email req.phoneNumber
        (some pc.id) .secondary).1.linkedId = some pc.id ∧
      (ContactRepository.create s req.email req.phoneNumber
        (some pc.id) .secondary).1.linkPrecedence = .secondary) ∧
    (ContactLinkingEngine.findPrimaryFromContactsLoop s existing = none →
      ∃ msg, ContactLinkingEngine.createSecondary s existing req =
        .error (.linking msg)) := by
  have hfindnone : existing.find? (fun c => c.linkPrecedence == LinkPrecedence.primary)
      = none := by
    rw [List.find?_eq_none]
    intro c hc
    have := List.filter_eq_nil_iff.1 hnoprim c hc
    simpa using this
  refine ⟨?_, ?_, ?_⟩
  · unfold ContactLinkingEngine.determineContactStrategy
    rw [if_neg (by
      intro hlen
      exact hne (List.length_eq_zero.1 hlen))]
    rw [hnoexact]
    rw [if_neg (by simp)]
    rw [if_neg (by
      rw [hnoprim]
      simp)]
  · intro pc hloop
    rcases findPrimaryFromContactsLoop_primary hWF hNC hloop with ⟨hpcmem, hpcprim⟩
    rcases findPrimaryFromContactsLoop_first s existing pc hloop with
      ⟨l1, c, l2, hsplit, hpre, hcs, hct, hcf⟩
    have hfp : ContactLinkingEngine.findPrimaryFromContacts s existing = .ok pc := by
      unfold ContactLinkingEngine.findPrimaryFromContacts
      rw [hfindnone, hloop]
    refine ⟨hpcmem, hpcprim, ⟨l1, c, l2, hsplit, hpre, hcs, hcf⟩, ?_, rfl, ?_, ?_⟩
    · refine ⟨(⟨pc, ContactRepository.findLinkedContacts
          (ContactRepository.create s req.email req.phoneNumber (some pc.id) .secondary).2
          pc.id⟩ : StrategyExecutionResult), ?_, rfl⟩
      unfold ContactLinkingEngine.createSecondary
      rw [hfp]
    · rw [create_fst_linkedId]
      have h0 : 0 < pc.id := hWF.2.2.1 pc hpcmem
      have ht : idTruthy (some pc.id) = true := by
        simp [idTruthy]
        omega
      rw [if_pos ht]
    · rw [create_fst_linkPrecedence]
  · intro hloop
    have hfp : ContactLinkingEngine.findPrimaryFromContacts s existing =
        .error (.linking "No primary contact found in the contact chain") := by
      unfold ContactLinkingEngine.findPrimaryFromContacts
      rw [hfindnone, hloop]
    refine ⟨"No primary contact found in the contact chain", ?_⟩
    unfold ContactLinkingEngine.createSecondary
    rw [hfp]

def secOnlyStore : Store :=
  { contacts :=
      [{ id := 1, phoneNumber := none, email := some "x", linkedId := none,
         linkPrecedence := .primary, createdAt := 1, updatedAt := 1, deletedAt := none },
       { id := 2, phoneNumber := none, email := some "a", linkedId := some 1,
         linkPrecedence := .secondary, createdAt := 2, updatedAt := 2, deletedAt := none },
       { id := 3, phoneNumber := some "y", email := none, linkedId := none,
         linkPrecedence := .primary, createdAt := 3, updatedAt := 3, deletedAt := none },
       { id := 4, phoneNumber := some "1", email := none, linkedId := some 3,
         linkPrecedence := .secondary, createdAt := 4, updatedAt := 4, deletedAt := none }],
    nextId := 5, now := 9 }

def secOnlyExisting : List Contact :=
  [{ id := 2, phoneNumber := none, email := some "a", linkedId := some 1,
     linkPrecedence := .secondary, createdAt := 2, updatedAt := 2, deletedAt := none },
   { id := 4, phoneNumber := some "1", email := none, linkedId := some 3,
     linkPrecedence := .secondary, createdAt := 4, updatedAt := 4, deletedAt := none }]

def secOnlyReq : IdentifyRequest := { email := some "a", phoneNumber := some "1" }

theorem secondary_only_candidates_spec_witness :
    (WF secOnlyStore ∧ NoChains secOnlyStore ∧ secOnlyExisting ≠ [] ∧
      ContactLinkingEngine.findExactMatch secOnlyExisting secOnlyReq = none ∧
      secOnlyExisting.filter (fun c => c.linkPrecedence == LinkPrecedence.primary) = []) ∧
    (ContactLinkingEngine.determineContactStrategy secOnlyExisting secOnlyReq =
        ContactLinkingStrategy.CREATE_SECONDARY ∧
    (∀ pc, ContactLinkingEngine.findPrimaryFromContactsLoop secOnlyStore secOnlyExisting =
        some pc →
      pc ∈ secOnlyStore.contacts ∧ pc.linkPrecedence = .primary ∧
      (∃ l1 c l2, secOnlyExisting = l1 ++ c :: l2 ∧
        (∀ b ∈ l1, ¬(b.linkPrecedence = .secondary ∧ idTruthy b.linkedId = true ∧
          (ContactRepository.findPrimaryContact secOnlyStore b.id).isSome = true)) ∧
        c.linkPrecedence = .secondary ∧
        ContactRepository.findPrimaryContact secOnlyStore c.id = some pc) ∧
      (∃ res, ContactLinkingEngine.createSecondary secOnlyStore secOnlyExisting secOnlyReq =
        .ok (res, (ContactRepository.create secOnlyStore secOnlyReq.email
          secOnlyReq.phoneNumber (some pc.id) .secondary).2) ∧
        res.primaryContact = pc) ∧
      (ContactRepository.create secOnlyStore secOnlyReq.email secOnlyReq.phoneNumber
          (some pc.id) .secondary).2.contacts
        = secOnlyStore.contacts ++
          [(ContactRepository.create secOnlyStore secOnlyReq.email secOnlyReq.phoneNumber
            (some pc.id) .secondary).1] ∧
      (ContactRepository.create secOnlyStore secOnlyReq.email secOnlyReq.phoneNumber
        (some pc.id) .secondary).1.linkedId = some pc.id ∧
      (ContactRepository.create secOnlyStore secOnlyReq.email secOnlyReq.phoneNumber
        (some pc.id) .secondary).1.linkPrecedence = .secondary) ∧
    (ContactLinkingEngine.findPrimaryFromContactsLoop secOnlyStore secOnlyExisting = none →
      ∃ msg, ContactLinkingEngine.createSecondary secOnlyStore secOnlyExisting secOnlyReq =
        .error (.linking msg))) :=
  ⟨⟨by decide, by decide, by decide, by decide, by decide⟩,
    secondary_only_candidates_spec secOnlyStore secOnlyExisting secOnlyReq
      (by decide) (by decide) (by decide) (by decide) (by decide)⟩
/-! ### Store failures during a merge (C8) -/

namespace ContactLinkingEngine

/-- An `update` call routed through a failure oracle: the write whose index
equals `failAt` fails with `StoreFailure` and commits nothing; any other
write commits.  The store returned is whatever has been committed. -/
def updateF (failAt k : Nat) (s : Store) (i : Nat) (li : Option Nat)
    (pr : LinkPrecedence) : Option ServiceError × Nat × Store :=
  if k = failAt then (some .storeFailure, k, s)
  else (none, k + 1, ContactRepository.update s i li pr)

/-- A `create` call routed through the failure oracle. -/
def createF (failAt k : Nat) (s : Store) (e p : Option String) (li : Option Nat)
    (pr : LinkPrecedence) : Option ServiceError × Nat × Store :=
  if k = failAt then (some .storeFailure, k, s)
  else (none, k + 1, (ContactRepository.create s e p li pr).2)

/-- The re-pointing loop of `convertPrimaryToSecondary` with failable
writes: the first failing update aborts, leaving earlier updates
committed. -/
def repointAllF (failAt tgt : Nat) :
    List Contact → Nat → Store → Option ServiceError × Nat × Store
  | [], k, s => (none, k, s)
  | c :: rest, k, s =>
    match updateF failAt k s c.id (some tgt) .secondary with
    | (some e, k', s') => (some e, k', s')
    | (none, k', s') => repointAllF failAt tgt rest k' s'

/-- `convertPrimaryToSecondary` with failable writes. -/
def convertPrimaryToSecondaryF (failAt k : Nat) (s : Store) (p : Contact)
    (tgt : Nat) : Option ServiceError × Nat × Store :=
  match updateF failAt k s p.id (some tgt) .secondary with
  | (some e, k', s') => (some e, k', s')
  | (none, k', s') =>
    repointAllF failAt tgt
      ((ContactRepository.findLinkedContacts s' p.id).filter (fun c =>
        c.linkPrecedence == LinkPrecedence.secondary && c.id != p.id)) k' s'

/-- The demotion loop of `linkExistingPrimaries` with failable writes. -/
def convertAllF (failAt tgt : Nat) :
    List Contact → Nat → Store → Option ServiceError × Nat × Store
  | [], k, s => (none, k, s)
  | p :: rest, k, s =>
    match convertPrimaryToSecondaryF failAt k s p tgt with
    | (some e, k', s') => (some e, k', s')
    | (none, k', s') => convertAllF failAt tgt rest k' s'

/-- `linkExistingPrimaries` with every repository write routed through the
failure oracle; the store committed so far is returned alongside the
outcome. -/
def linkExistingPrimariesF (failAt : Nat) (s : Store) (existingContacts : List Contact)
    (request : IdentifyRequest) : Except ServiceError StrategyExecutionResult × Store :=
  let primaryContacts := existingContacts.filter (fun c =>
    c.linkPrecedence == LinkPrecedence.primary)
  if primaryContacts.length < 2 then
    (.error (.linking "Expected at least 2 primary contacts for linking"), s)
  else
    match stableSort createdLe primaryContacts with
    | [] => (.error (.linking "No primary contact found after sorting"), s)
    | oldestPrimary :: newerPrimaries =>
      match convertAllF failAt oldestPrimary.id newerPrimaries 0 s with
      | (some e, _, s1) => (.error e, s1)
      | (none, k1, s1) =>
        match createF failAt k1 s1 request.email request.phoneNumber
            (some oldestPrimary.id) .secondary with
        | (some e, _, s2) => (.error e, s2)
        | (none, _, s2) =>
          (.ok { primaryContact := oldestPrimary,
                 allLinkedContacts := ContactRepository.findLinkedContacts s2
                   oldestPrimary.id }, s2)

end ContactLinkingEngine

theorem repointAllF_ok (failAt tgt : Nat) :
    ∀ (L : List Contact) (k : Nat) (s : Store) (k' : Nat) (s' : Store),
      ContactLinkingEngine.repointAllF failAt tgt L k s = (none, k', s') →
      s' = L.foldl (fun st c =>
        ContactRepository.update st c.id (some tgt) .secondary) s := by
  intro L
  induction L with
  | nil =>
    intro k s k' s' h
    unfold ContactLinkingEngine.repointAllF at h
    injection h with h1 h2
    injection h2 with h2a h2b
    exact h2b.symm
  | cons c rest ih =>
    intro k s k' s' h
    unfold ContactLinkingEngine.repointAllF ContactLinkingEngine.updateF at h
    by_cases hk : k = failAt
    · rw [if_pos hk] at h
      dsimp only at h
      injection h with h1
      cases h1
    · rw [if_neg hk] at h
      dsimp only at h
      rw [List.foldl_cons]
      exact ih _ _ _ _ h

theorem convertPrimaryToSecondaryF_ok (failAt k : Nat) (s : Store) (p : Contact)
    (tgt : Nat) (k' : Nat) (s' : Store)
    (h : ContactLinkingEngine.convertPrimaryToSecondaryF failAt k s p tgt = (none, k', s')) :
    s' = ContactLinkingEngine.convertPrimaryToSecondary s p tgt := by
  unfold ContactLinkingEngine.convertPrimaryToSecondaryF ContactLinkingEngine.updateF at h
  by_cases hk : k = failAt
  · rw [if_pos hk] at h
    dsimp only at h
    injection h with h1
    cases h1
  · rw [if_neg hk] at h
    dsimp only at h
    unfold ContactLinkingEngine.convertPrimaryToSecondary
    exact repointAllF_ok failAt tgt _ _ _ _ _ h

theorem convertAllF_ok (failAt tgt : Nat) :
    ∀ (L : List Contact) (k : Nat) (s : Store) (k' : Nat) (s' : Store),
      ContactLinkingEngine.convertAllF failAt tgt L k s = (none, k', s') →
      s' = L.foldl (fun st p =>
        ContactLinkingEngine.convertPrimaryToSecondary st p tgt) s := by
  intro L
  induction L with
  | nil =>
    intro k s k' s' h
    unfold ContactLinkingEngine.convertAllF at h
    injection h with h1 h2
    injection h2 with h2a h2b
    exact h2b.symm
  | cons p rest ih =>
    intro k s k' s' h
    unfold ContactLinkingEngine.convertAllF at h
    cases hcv : ContactLinkingEngine.convertPrimaryToSecondaryF failAt k s p tgt with
    | mk e rest' =>
      rw [hcv] at h
      cases e with
      | some e' =>
        dsimp only at h
        injection h with h1
        cases h1
      | none =>
        dsimp only at h
        rw [List.foldl_cons]
        have hst : rest'.2 = ContactLinkingEngine.convertPrimaryToSecondary s p tgt :=
          convertPrimaryToSecondaryF_ok failAt k s p tgt rest'.1 rest'.2 (by rw [hcv])
        rw [← hst]
        exact ih _ _ _ _ h

theorem linkExistingPrimariesF_ok (failAt : Nat) (s : Store) (existing : List Contact)
    (req : IdentifyRequest) (res : StrategyExecutionResult)
    (h : (ContactLinkingEngine.linkExistingPrimariesF failAt s existing req).1 = .ok res) :
    ContactLinkingEngine.linkExistingPrimaries s existing req =
      .ok (res, (ContactLinkingEngine.linkExistingPrimariesF failAt s existing req).2) := by
  unfold ContactLinkingEngine.linkExistingPrimariesF at h
  by_cases hp2 : (existing.filter
      (fun c => c.linkPrecedence == LinkPrecedence.primary)).length < 2
  · rw [if_pos hp2] at h
    cases h
  · rw [if_neg hp2] at h
    cases hsort : stableSort createdLe
        (existing.filter (fun c => c.linkPrecedence == LinkPrecedence.primary)) with
    | nil =>
      rw [hsort] at h
      dsimp only at h
      cases h
    | cons oldest newer =>
      rw [hsort] at h
      dsimp only at h
      cases hcv : ContactLinkingEngine.convertAllF failAt oldest.id newer 0 s with
      | mk e rest' =>
        rw [hcv] at h
        cases e with
        | some e' =>
          dsimp only at h
          cases h
        | none =>
          dsimp only at h
          have hs1 : rest'.2 = newer.foldl (fun st p =>
              ContactLinkingEngine.convertPrimaryToSecondary st p oldest.id) s :=
            convertAllF_ok failAt oldest.id newer 0 s rest'.1 rest'.2 (by rw [hcv])
          cases hcr : ContactLinkingEngine.createF failAt rest'.1 rest'.2 req.email
              req.phoneNumber (some oldest.id) .secondary with
          | mk e2 rest2 =>
            rw [hcr] at h
            cases e2 with
            | some e2' =>
              dsimp only at h
              cases h
            | none =>
              dsimp only at h
              injection h with h'
              have hF2 : (ContactLinkingEngine.linkExistingPrimariesF failAt s
                  existing req).2 = rest2.2 := by
                unfold ContactLinkingEngine.linkExistingPrimariesF
                rw [if_neg hp2, hsort]
                dsimp only
                rw [hcv]
                dsimp only
                rw [hcr]
              rw [hF2]
              unfold ContactLinkingEngine.createF at hcr
              by_cases hk : rest'.1 = failAt
              · rw [if_pos hk] at hcr
                injection hcr with hc1 hc2
                cases hc1
              · rw [if_neg hk] at hcr
                injection hcr with hc1 hc2
                rw [← hc2] at h' ⊢
                dsimp only at h' ⊢
                unfold ContactLinkingEngine.linkExistingPrimaries
                rw [if_neg hp2, hsort]
                dsimp only
                rw [← hs1, ← h']

/-- C8 amended: a ContactStore operation failure aborts the merge strategy —
the error is surfaced and no subsequent writes happen — and a failure on
the very first write leaves the store unchanged; but the write sequence is
not transactional: writes committed before the failure remain observable
(see the counterexample, where a failure between demoting a losing primary
and re-pointing its secondaries leaves a secondary pointing at a demoted
row).  Absent failures the instrumented run coincides with the strategy's
normal effect. -/
theorem merge_store_failure_spec :
    (∀ (s : Store) (existing : List Contact) (req : IdentifyRequest),
      2 ≤ (existing.filter (fun c => c.linkPrecedence == LinkPrecedence.primary)).length →
      ContactLinkingEngine.linkExistingPrimariesF 0 s existing req =
        (.error .storeFailure, s)) ∧
    (∀ (failAt : Nat) (s : Store) (existing : List Contact) (req : IdentifyRequest)
        (res : StrategyExecutionResult),
      (ContactLinkingEngine.linkExistingPrimariesF failAt s existing req).1 = .ok res →
      ContactLinkingEngine.linkExistingPrimaries s existing req =
        .ok (res, (ContactLinkingEngine.linkExistingPrimariesF failAt s existing req).2)) := by
  refine ⟨?_, fun failAt s existing req res h =>
    linkExistingPrimariesF_ok failAt s existing req res h⟩
  intro s existing req hp2
  unfold ContactLinkingEngine.linkExistingPrimariesF
  rw [if_neg (Nat.not_lt.2 hp2)]
  cases hsort : stableSort createdLe
      (existing.filter (fun c => c.linkPrecedence == LinkPrecedence.primary)) with
  | nil =>
    exfalso
    have hlen := (stableSort_perm createdLe
      (existing.filter (fun c => c.linkPrecedence == LinkPrecedence.primary))).length_eq
    rw [hsort] at hlen
    rw [← hlen] at hp2
    simp at hp2
  | cons oldest newer =>
    cases newer with
    | nil =>
      dsimp only [ContactLinkingEngine.convertAllF, ContactLinkingEngine.createF]
      simp
    | cons p rest =>
      dsimp only [ContactLinkingEngine.convertAllF,
        ContactLinkingEngine.convertPrimaryToSecondaryF, ContactLinkingEngine.updateF]
      simp

def mergeFailStore : Store :=
  { contacts :=
      [{ id := 1, phoneNumber := none, email := some "a", linkedId := none,
         linkPrecedence := .primary, createdAt := 1, updatedAt := 1, deletedAt := none },
       { id := 2, phoneNumber := some "p", email := none, linkedId := none,
         linkPrecedence := .primary, createdAt := 2, updatedAt := 2, deletedAt := none },
       { id := 3, phoneNumber := some "q", email := none, linkedId := some 2,
         linkPrecedence := .secondary, createdAt := 3, updatedAt := 3, deletedAt := none }],
    nextId := 4, now := 9 }

def mergeFailExisting : List Contact :=
  [{ id := 1, phoneNumber := none, email := some "a", linkedId := none,
     linkPrecedence := .primary, createdAt := 1, updatedAt := 1, deletedAt := none },
   { id := 2, phoneNumber := some "p", email := none, linkedId := none,
     linkPrecedence := .primary, createdAt := 2, updatedAt := 2, deletedAt := none }]

def mergeFailReq : IdentifyRequest := { email := some "a", phoneNumber := some "p" }

/-- C8 counterexample: when the second write of a merge fails (after the
losing primary was demoted, before its secondary was re-pointed), the
strategy aborts with `StoreFailure` but a partial mutation is observable:
the store changed, the no-chains invariant is broken, and row 3 is a
Secondary whose `linkedId` points at the demoted (now Secondary) row 2. -/
theorem merge_store_failure_counterexample :
    (ContactLinkingEngine.linkExistingPrimariesF 1 mergeFailStore mergeFailExisting
        mergeFailReq).1 = Except.error ServiceError.storeFailure ∧
    (ContactLinkingEngine.linkExistingPrimariesF 1 mergeFailStore mergeFailExisting
        mergeFailReq).2 ≠ mergeFailStore ∧
    NoChains mergeFailStore ∧
    ¬ NoChains (ContactLinkingEngine.linkExistingPrimariesF 1 mergeFailStore
        mergeFailExisting mergeFailReq).2 ∧
    (∃ c ∈ (ContactLinkingEngine.linkExistingPrimariesF 1 mergeFailStore mergeFailExisting
        mergeFailReq).2.contacts,
      c.id = 3 ∧ c.linkPrecedence = .secondary ∧ c.linkedId = some 2) ∧
    (∃ c ∈ (ContactLinkingEngine.linkExistingPrimariesF 1 mergeFailStore mergeFailExisting
        mergeFailReq).2.contacts,
      c.id = 2 ∧ c.linkPrecedence = .secondary) := by
  refine ⟨rfl, by decide, by decide, by decide, by decide, by decide⟩

theorem merge_store_failure_spec_witness :
    (2 ≤ (mergeFailExisting.filter
        (fun c => c.linkPrecedence == LinkPrecedence.primary)).length) ∧
    ContactLinkingEngine.linkExistingPrimariesF 0 mergeFailStore mergeFailExisting
        mergeFailReq = (.error .storeFailure, mergeFailStore) :=
  ⟨by decide, merge_store_failure_spec.1 mergeFailStore mergeFailExisting mergeFailReq
    (by decide)⟩
/-! ### Concurrent identify calls (C9) -/

/-- The read phase of `identifyContact`: the awaited candidate query. -/
def identifyReadPhase (s : Store) (req : IdentifyRequest) : List Contact :=
  ContactRepository.findByEmailOrPhoneNumber s req.email req.phoneNumber

/-- The classify-and-execute phase of `identifyContact`, run against the
live store but classifying the snapshot read earlier (exactly the code's
structure: the candidate read is awaited before the writes begin). -/
def identifyExecutePhase (s : Store) (snapshot : List Contact) (req : IdentifyRequest) : Store :=
  match ContactLinkingEngine.executeStrategy s
      (ContactLinkingEngine.determineContactStrategy snapshot req) snapshot req with
  | .error _ => s
  | .ok (_, s') => s'

/-- Two concurrent `identifyContact` calls interleaved as Node.js allows:
both reads complete before either write phase runs. -/
def interleavedIdentifyPair (s : Store) (r1 r2 : IdentifyRequest) : Store :=
  identifyExecutePhase (identifyExecutePhase s (identifyReadPhase s r1) r1)
    (identifyReadPhase s r2) r2

/-- The same two calls run serially (second starts after the first
committed). -/
def serialIdentifyPair (s : Store) (r1 r2 : IdentifyRequest) : Store :=
  (ContactService.identifyContact (ContactService.identifyContact s r1).2 r2).2

/-- Number of live Primary rows. -/
def countPrimaries (s : Store) : Nat :=
  s.contacts.countP (fun c =>
    c.deletedAt == none && c.linkPrecedence == LinkPrecedence.primary)

/-- C9 counterexample: two concurrent identify calls sharing the same email,
interleaved so that both read before either writes, create two Primary rows
with that email — the race the claim says the core prevents. -/
theorem concurrent_identify_counterexample :
    countPrimaries (interleavedIdentifyPair emptyDB
        { email := some "a", phoneNumber := none }
        { email := some "a", phoneNumber := none }) = 2 ∧
    (∀ c ∈ (interleavedIdentifyPair emptyDB
        { email := some "a", phoneNumber := none }
        { email := some "a", phoneNumber := none }).contacts,
      c.email = some "a" ∧ c.linkPrecedence = .primary) := by
  refine ⟨by decide, by decide⟩

/-- The store produced by one successful CreateNewIdentity on the empty
database for an email-only observation. -/
def singlePrimaryStore (e : String) : Store :=
  { contacts :=
      [{ id := 1, phoneNumber := none, email := some e, linkedId := none,
         linkPrecedence := .primary, createdAt := 0, updatedAt := 0, deletedAt := none }],
    nextId := 2, now := 0 }

/-- The single row of `singlePrimaryStore`. -/
def singlePrimaryRow (e : String) : Contact :=
  { id := 1, phoneNumber := none, email := some e, linkedId := none,
    linkPrecedence := .primary, createdAt := 0, updatedAt := 0, deletedAt := none }

/-- C9 amended: the code has no concurrency coordinator, so overlapping
identify calls are not serialized: in the interleaving where both calls
read the candidate set before either writes, each classifies
CREATE_NEW_PRIMARY and two Primaries with the same email result; only when
the calls run serially does the second classify as NoOp, leaving exactly
one Primary. -/
theorem concurrent_identify_amended (e : String) (he : e ≠ "") :
    countPrimaries (interleavedIdentifyPair emptyDB
        { email := some e, phoneNumber := none }
        { email := some e, phoneNumber := none }) = 2 ∧
    countPrimaries (serialIdentifyPair emptyDB
        { email := some e, phoneNumber := none }
        { email := some e, phoneNumber := none }) = 1 := by
  have htruthy : truthy (some e) = true := by simp [truthy, he]
  have hread : identifyReadPhase emptyDB { email := some e, phoneNumber := none } = [] := by
    unfold identifyReadPhase ContactRepository.findByEmailOrPhoneNumber
    split
    · rfl
    · rfl
  have hexec1 : identifyExecutePhase emptyDB []
      { email := some e, phoneNumber := none } = singlePrimaryStore e := by
    unfold identifyExecutePhase ContactLinkingEngine.determineContactStrategy
    simp only [List.length_nil]
    unfold ContactLinkingEngine.executeStrategy ContactLinkingEngine.createNewPrimary
      ContactRepository.create
    simp [emptyDB, htruthy, truthy, singlePrimaryStore, he]
  constructor
  · unfold interleavedIdentifyPair
    rw [hread, hexec1]
    unfold identifyExecutePhase ContactLinkingEngine.determineContactStrategy
    simp only [List.length_nil]
    unfold ContactLinkingEngine.executeStrategy ContactLinkingEngine.createNewPrimary
      ContactRepository.create
    simp [htruthy, truthy, countPrimaries, singlePrimaryStore, he]
  · unfold serialIdentifyPair
    have hval : ¬ (¬ truthy (some e : Option String) ∧
        ¬ truthy (none : Option String)) := by
      rw [htruthy]
      simp
    have hid1 : (ContactService.identifyContact emptyDB
        { email := some e, phoneNumber := none }).2 = singlePrimaryStore e := by
      unfold ContactService.identifyContact
      rw [if_neg hval]
      have hr : ContactRepository.findByEmailOrPhoneNumber emptyDB (some e) none = [] := by
        unfold ContactRepository.findByEmailOrPhoneNumber
        split
        · rfl
        · rfl
      dsimp only
      rw [hr]
      unfold ContactLinkingEngine.determineContactStrategy
      simp only [List.length_nil]
      unfold ContactLinkingEngine.executeStrategy ContactLinkingEngine.createNewPrimary
        ContactRepository.create
      simp [emptyDB, htruthy, truthy, singlePrimaryStore, he]
    rw [hid1]
    have hcand : ContactRepository.findByEmailOrPhoneNumber (singlePrimaryStore e)
        (some e) none = [singlePrimaryRow e] := by
      unfold ContactRepository.findByEmailOrPhoneNumber
      rw [if_neg (by rw [htruthy]; simp)]
      unfold singlePrimaryStore
      simp [htruthy, stableSort, insertStable, singlePrimaryRow]
    have hmatch : ContactLinkingEngine.findExactMatch [singlePrimaryRow e]
        { email := some e, phoneNumber := none } = some (singlePrimaryRow e) := by
      unfold ContactLinkingEngine.findExactMatch
      simp [htruthy, truthy, singlePrimaryRow]
    unfold ContactService.identifyContact
    rw [if_neg hval]
    dsimp only
    rw [hcand]
    unfold ContactLinkingEngine.determineContactStrategy
    rw [hmatch]
    simp only [List.length_cons, List.length_nil, Option.isSome_some, if_true]
    rw [if_neg (by simp)]
    unfold ContactLinkingEngine.executeStrategy ContactLinkingEngine.returnExisting
    rw [hmatch]
    unfold ContactLinkingEngine.findPrimaryFromContacts
    simp only [List.find?_cons]
    simp [countPrimaries, singlePrimaryRow, singlePrimaryStore]

theorem concurrent_identify_amended_witness :
    ("a" : String) ≠ "" ∧
    (countPrimaries (interleavedIdentifyPair emptyDB
        { email := some "a", phoneNumber := none }
        { email := some "a", phoneNumber := none }) = 2 ∧
      countPrimaries (serialIdentifyPair emptyDB
        { email := some "a", phoneNumber := none }
        { email := some "a", phoneNumber := none }) = 1) :=
  ⟨by decide, concurrent_identify_amended "a" (by decide)⟩
